import Mathlib

/-!
Verification development for the hybrid medical-image encryption module
(`src/hybrid_encryption.py`).

The mode-dispatch encryption/decryption engine, the binary container format,
the PKCS7 padding discipline and the legacy fixed-CBC pair are shallowly
embedded over byte lists (`List Nat`, each element a byte value).  The
external cryptographic primitives (the AES block permutation, PyCryptodome's
OCB authenticated cipher, RSA-OAEP) are not implemented by the repository -
it only orchestrates calls to them - so they enter the embedding as abstract
function parameters, constrained by the correctness laws the underlying
libraries guarantee.  Everything the repository itself computes (key/IV
draws from the random source, mode dispatch, padding, chaining of the block
permutation, header layout, slicing, error paths) is modelled directly from
the source.
-/

/-! ### Byte-level helpers: Python `int.to_bytes` / `int.from_bytes`, big-endian -/

/-- Big-endian encoding of `v` into exactly `n` bytes (Python `v.to_bytes(n, 'big')`;
the Python call raises `OverflowError` for `v ≥ 256^n`, so theorems that read the
value back carry a `v < 256^n` bound). -/
def natToBytesBE : Nat → Nat → List Nat
  | 0, _ => []
  | n + 1, v => natToBytesBE n (v / 256) ++ [v % 256]

/-- Big-endian decoding (Python `int.from_bytes(bs, 'big')`; of an empty slice it is 0). -/
def bytesToNatBE (bs : List Nat) : Nat :=
  bs.foldl (fun acc b => acc * 256 + b) 0

/-! ### Python slice semantics on byte lists (non-negative clamped slices, negative stops) -/

/-- Python `l[a:b]` for `0 ≤ a ≤ b`: clamps at the end of the list, never raises. -/
def pySlice (l : List Nat) (a b : Nat) : List Nat := (l.drop a).take (b - a)

/-- Python `l[-16:]`: the final 16 bytes, or the whole list when it is shorter. -/
def pyLast16 (l : List Nat) : List Nat := l.drop (l.length - 16)

/-- Python `l[a:-16]`: from index `a` up to 16 bytes before the end, clamped to empty. -/
def pySliceToNeg16 (l : List Nat) (a : Nat) : List Nat := (l.drop a).take (l.length - 16 - a)

/-! ### Strings as ASCII byte lists -/

/-- Byte values of a string (Python `s.encode('ascii')` for ASCII strings). -/
def strBytes (s : String) : List Nat := s.data.map Char.toNat

/-- Python `s.upper()` restricted to ASCII, which is all the code ever passes. -/
def strUpper (s : String) : String := ⟨s.data.map Char.toUpper⟩

/-- Python `bs.rstrip(b'\x00')`: drop trailing zero bytes. -/
def rstripNul (bs : List Nat) : List Nat :=
  (bs.reverse.dropWhile (fun b => b == 0)).reverse

/-- Python `bs.decode('ascii')`: succeeds exactly when every byte is below 128. -/
def asciiDecode (bs : List Nat) : Option String :=
  if bs.all (fun b => b < 128) then some ⟨bs.map Char.ofNat⟩ else none

/-! ### Blocks, XOR, PKCS7 -/

/-- Pointwise XOR of two byte lists, truncating to the shorter one (stream-cipher use). -/
def listXor (a b : List Nat) : List Nat := List.zipWith (fun x y => x ^^^ y) a b

/-- Fuel-driven splitting into 16-byte chunks (the last chunk may be shorter). -/
def chunksAux : Nat → List Nat → List (List Nat)
  | 0, _ => []
  | _ + 1, [] => []
  | fuel + 1, b :: bs => (b :: bs).take 16 :: chunksAux fuel ((b :: bs).drop 16)

/-- Split a byte list into 16-byte blocks. -/
def chunks16 (bs : List Nat) : List (List Nat) := chunksAux bs.length bs

/-- Error taxonomy of the decryption path, naming the exceptions the Python code
(and the libraries it calls) raise: `unicodeDecodeError` for a non-ASCII mode
field, `keyUnwrapFailed` for a failed RSA-OAEP decryption, `unsupportedMode`
for the `ValueError` of the dispatch fallback, `authenticationFailed` for the
re-raised OCB tag `ValueError`, `invalidPadding` for the PKCS7 unpadder,
`invalidIVSize`/`invalidNonce` for the cipher-library IV/nonce length checks,
`notMultipleOfBlock` for a ragged ECB/CBC ciphertext, and `dimensionMismatch`
for the failing `numpy` reshape of the recovered buffer. -/
inductive DecError where
  | unicodeDecodeError
  | keyUnwrapFailed
  | unsupportedMode
  | authenticationFailed
  | invalidPadding
  | invalidIVSize
  | invalidNonce
  | notMultipleOfBlock
  | dimensionMismatch
deriving DecidableEq

/-- Decidable equality for `Except`, so concrete outcomes can be checked by `decide`. -/
instance {e a : Type} [DecidableEq e] [DecidableEq a] : DecidableEq (Except e a) := fun x y =>
  match x, y with
  | .ok v, .ok w => if h : v = w then .isTrue (by rw [h]) else .isFalse (by intro hc; cases hc; exact h rfl)
  | .error v, .error w => if h : v = w then .isTrue (by rw [h]) else .isFalse (by intro hc; cases hc; exact h rfl)
  | .ok _, .error _ => .isFalse (by intro hc; cases hc)
  | .error _, .ok _ => .isFalse (by intro hc; cases hc)

/-- PKCS7 padding to a 16-byte boundary (`padding.PKCS7(128).padder()`): append
`16 - len % 16` bytes, each holding that count; a block-aligned input gains a
full extra block. -/
def pkcs7Pad (bs : List Nat) : List Nat :=
  bs ++ List.replicate (16 - bs.length % 16) (16 - bs.length % 16)

/-- PKCS7 unpadding (`padding.PKCS7(128).unpadder()`): the input must be a
non-empty multiple of 16 bytes, the final byte `n` must lie in `1..16`, and the
last `n` bytes must all equal `n`; otherwise the unpadder raises. -/
def pkcs7Unpad (bs : List Nat) : Except DecError (List Nat) :=
  if bs.length = 0 ∨ bs.length % 16 ≠ 0 then .error .invalidPadding
  else
    let n := bs.getLastD 0
    if n = 0 ∨ 16 < n then .error .invalidPadding
    else if (bs.drop (bs.length - n)).all (fun b => b == n) then
      .ok (bs.take (bs.length - n))
    else .error .invalidPadding

/-! ### Cipher-mode chaining over an abstract block permutation

`E`/`D` stand for the AES-128 block encryption/decryption supplied by the
`cryptography` library; the repository only composes them per mode. -/

/-- CBC encryption over a list of blocks, threading the previous ciphertext block. -/
def cbcEncB (E : List Nat → List Nat → List Nat) (k : List Nat) :
    List Nat → List (List Nat) → List (List Nat)
  | _, [] => []
  | prev, b :: bs =>
    let c := E k (listXor b prev)
    c :: cbcEncB E k c bs

/-- CBC decryption over a list of blocks. -/
def cbcDecB (D : List Nat → List Nat → List Nat) (k : List Nat) :
    List Nat → List (List Nat) → List (List Nat)
  | _, [] => []
  | prev, c :: cs => listXor (D k c) prev :: cbcDecB D k c cs

/-- Full-block CFB encryption: `c_i = p_i XOR E(k, c_{i-1})`, seeded with the IV. -/
def cfbEncB (E : List Nat → List Nat → List Nat) (k : List Nat) :
    List Nat → List (List Nat) → List (List Nat)
  | _, [] => []
  | s, b :: bs =>
    let c := listXor b (E k s)
    c :: cfbEncB E k c bs

/-- Full-block CFB decryption: `p_i = c_i XOR E(k, c_{i-1})`. -/
def cfbDecB (E : List Nat → List Nat → List Nat) (k : List Nat) :
    List Nat → List (List Nat) → List (List Nat)
  | _, [] => []
  | s, c :: cs => listXor c (E k s) :: cfbDecB E k c cs

/-- CTR keystream: the 16-byte value is a big-endian counter incremented per block
(`modes.CTR`); each counter block passes through the block permutation. -/
def ctrKeystream (E : List Nat → List Nat → List Nat) (k nonce : List Nat)
    (nblocks : Nat) : List Nat :=
  ((List.range nblocks).map
    (fun i => E k (natToBytesBE 16 ((bytesToNatBE nonce + i) % 2 ^ 128)))).flatten

/-- CTR transform (encryption and decryption coincide): XOR with the keystream. -/
def ctrXcrypt (E : List Nat → List Nat → List Nat) (k nonce data : List Nat) : List Nat :=
  listXor data (ctrKeystream E k nonce ((data.length + 15) / 16))

/-! ### OAEP parameters and container data -/

/-- Hash algorithms the OAEP call sites can name. -/
inductive HashAlg where
  | SHA1
  | SHA256
deriving DecidableEq

/-- The parameters handed to `asym_padding.OAEP(...)`: the MGF1 hash, the main
digest, and the optional label. -/
structure OAEPParams where
  mgfAlg : HashAlg
  mainAlg : HashAlg
  label : Option (List Nat)
deriving DecidableEq

/-- The exact OAEP configuration both call sites construct:
`OAEP(mgf=MGF1(SHA256()), algorithm=SHA256(), label=None)`. -/
def oaepSha256 : OAEPParams := ⟨HashAlg.SHA256, HashAlg.SHA256, none⟩

/-- Result of an encryption call: the container byte buffer written to
`output_path` and the wrapped-key bytes written to the sibling
`*_encrypted_key.bin` file. -/
structure EncOut where
  container : List Nat
  wrappedKey : List Nat
deriving DecidableEq

/-- The only failure of the encryption dispatch: the `ValueError` for an
unrecognized mode name. -/
inductive EncError where
  | unsupportedMode
deriving DecidableEq

/-- The five mode names the dispatch recognizes. -/
def knownModes : List String := ["ECB", "CBC", "CTR", "CFB", "OCB"]

/-- `mode_name.encode('ascii').ljust(3, b'\x00')`: the 3-byte mode field. -/
def modeField (m : String) : List Nat :=
  strBytes m ++ List.replicate (3 - (strBytes m).length) 0

/-- The fields `decrypt_image_with_mode` extracts from the container buffer
(lines 405-425 of the source). -/
structure Fields where
  width : Nat
  height : Nat
  modeName : String
  ivLen : Nat
  ivOrNonce : Option (List Nat)
  ciphertext : List Nat
  tag : Option (List Nat)
deriving DecidableEq

/-! ### The orchestrator, modelled from `encrypt_image_with_mode` /
`decrypt_image_with_mode`

Abstract primitive parameters:
* `E`, `D` : the AES-128 block permutation and its inverse (key, block ↦ block);
* `ocbE`   : PyCryptodome OCB `encrypt_and_digest` (key, nonce, plaintext ↦
  ciphertext and 16-byte tag);
* `ocbD`   : PyCryptodome OCB `decrypt_and_verify` (key, nonce, ciphertext,
  tag ↦ plaintext, or nothing when tag verification fails);
* `rsaE`, `rsaD` : RSA-OAEP wrap/unwrap under the fixed key pair;
* `freshNonce` : the random 15-byte nonce PyCryptodome draws itself when a
  caller constructs an OCB cipher without one (only reachable from a
  container whose declared iv/nonce length is zero).

The random source (`os.urandom` / `get_random_bytes`) is modelled as a
caller-supplied entropy byte list `ent`, consumed front to back, and every
encryption outcome carries the number of entropy bytes drawn. -/

/-- The body of `encrypt_image_with_mode` after the `mode_name.upper()`
normalization of line 275: dispatch on the (already uppercased) mode name,
draw the key and then the IV/nonce from the entropy stream, pad when the mode
needs it, encrypt, wrap the key, and assemble `header ++ ciphertext (++ tag)`.
The key draw of line 272 precedes the dispatch, so the unsupported-mode
failure path has already consumed the 16 key bytes. -/
def encrypt_with_upper_mode (E : List Nat → List Nat → List Nat)
    (ocbE : List Nat → List Nat → List Nat → List Nat × List Nat)
    (rsaE : OAEPParams → List Nat → List Nat)
    (ent imgBytes : List Nat) (w h : Nat) (m : String) :
    Except EncError EncOut × Nat :=
  let aesKey := ent.take 16
  if m = "ECB" then
    let ct := ((chunks16 (pkcs7Pad imgBytes)).map (E aesKey)).flatten
    let header := natToBytesBE 4 w ++ natToBytesBE 4 h ++ modeField m ++ natToBytesBE 2 0
    (.ok ⟨header ++ ct, rsaE oaepSha256 aesKey⟩, 16)
  else if m = "CBC" then
    let iv := (ent.drop 16).take 16
    let ct := (cbcEncB E aesKey iv (chunks16 (pkcs7Pad imgBytes))).flatten
    let header := natToBytesBE 4 w ++ natToBytesBE 4 h ++ modeField m ++
      natToBytesBE 2 16 ++ iv
    (.ok ⟨header ++ ct, rsaE oaepSha256 aesKey⟩, 32)
  else if m = "CTR" then
    let nonce := (ent.drop 16).take 16
    let ct := ctrXcrypt E aesKey nonce imgBytes
    let header := natToBytesBE 4 w ++ natToBytesBE 4 h ++ modeField m ++
      natToBytesBE 2 16 ++ nonce
    (.ok ⟨header ++ ct, rsaE oaepSha256 aesKey⟩, 32)
  else if m = "CFB" then
    let iv := (ent.drop 16).take 16
    let ct := (cfbEncB E aesKey iv (chunks16 imgBytes)).flatten
    let header := natToBytesBE 4 w ++ natToBytesBE 4 h ++ modeField m ++
      natToBytesBE 2 16 ++ iv
    (.ok ⟨header ++ ct, rsaE oaepSha256 aesKey⟩, 32)
  else if m = "OCB" then
    let nonce := (ent.drop 16).take 15
    let p := ocbE aesKey nonce imgBytes
    let header := natToBytesBE 4 w ++ natToBytesBE 4 h ++ modeField m ++
      natToBytesBE 2 15 ++ nonce
    (.ok ⟨header ++ p.1 ++ p.2, rsaE oaepSha256 aesKey⟩, 31)
  else
    (.error .unsupportedMode, 16)

/-- `encrypt_image_with_mode`: line 275 uppercases the caller's mode identifier
before any matching happens. -/
def encrypt_image_with_mode (E : List Nat → List Nat → List Nat)
    (ocbE : List Nat → List Nat → List Nat → List Nat × List Nat)
    (rsaE : OAEPParams → List Nat → List Nat)
    (ent imgBytes : List Nat) (w h : Nat) (modeArg : String) :
    Except EncError EncOut × Nat :=
  encrypt_with_upper_mode E ocbE rsaE ent imgBytes w h (strUpper modeArg)

/-- The container-reading part of `decrypt_image_with_mode` (lines 405-425):
width and height from bytes 0..8, the null-trimmed ASCII mode name from bytes
8..11, the declared iv/nonce length from bytes 11..13, the iv/nonce slice, and
the ciphertext/tag split - the tag being the final 16 bytes only when the mode
decodes to `OCB`.  All slicing is total; the only possible failure is a
non-ASCII mode field (`.decode('ascii')`). -/
def decodeContainer (data : List Nat) : Except DecError Fields :=
  let width := bytesToNatBE (pySlice data 0 4)
  let height := bytesToNatBE (pySlice data 4 8)
  match asciiDecode (rstripNul (pySlice data 8 11)) with
  | none => .error .unicodeDecodeError
  | some modeName =>
    let ivLen := bytesToNatBE (pySlice data 11 13)
    let headerEnd := 13 + ivLen
    let ivOrNonce := if 0 < ivLen then some (pySlice data 13 headerEnd) else none
    if modeName = "OCB" then
      .ok ⟨width, height, modeName, ivLen, ivOrNonce,
        pySliceToNeg16 data headerEnd, some (pyLast16 data)⟩
    else
      .ok ⟨width, height, modeName, ivLen, ivOrNonce, data.drop headerEnd, none⟩

/-- `decrypt_image_with_mode` up to (but excluding) the final reshape: decode
the container, unwrap the AES key with RSA-OAEP, dispatch on the stored mode
name (checking the IV/nonce lengths exactly where the cipher libraries do),
decrypt, and unpad for the padded modes.  Returns the header width, height and
the recovered byte buffer. -/
def decryptCore (E D : List Nat → List Nat → List Nat)
    (ocbD : List Nat → List Nat → List Nat → List Nat → Option (List Nat))
    (rsaD : OAEPParams → List Nat → Option (List Nat))
    (freshNonce : List Nat) (data wrappedKey : List Nat) :
    Except DecError (Nat × Nat × List Nat) :=
  match decodeContainer data with
  | .error e => .error e
  | .ok f =>
    match rsaD oaepSha256 wrappedKey with
    | none => .error .keyUnwrapFailed
    | some aesKey =>
      if f.modeName = "OCB" then
        match f.ivOrNonce with
        | none =>
          match ocbD aesKey freshNonce f.ciphertext (f.tag.getD []) with
          | none => .error .authenticationFailed
          | some pt => .ok (f.width, f.height, pt)
        | some nonce =>
          if nonce.length = 0 ∨ 15 < nonce.length then .error .invalidNonce
          else
            match ocbD aesKey nonce f.ciphertext (f.tag.getD []) with
            | none => .error .authenticationFailed
            | some pt => .ok (f.width, f.height, pt)
      else if f.modeName = "ECB" then
        if f.ciphertext.length % 16 ≠ 0 then .error .notMultipleOfBlock
        else
          match pkcs7Unpad (((chunks16 f.ciphertext).map (D aesKey)).flatten) with
          | .error e => .error e
          | .ok pt => .ok (f.width, f.height, pt)
      else if f.modeName = "CBC" then
        match f.ivOrNonce with
        | none => .error .invalidIVSize
        | some iv =>
          if iv.length ≠ 16 then .error .invalidIVSize
          else if f.ciphertext.length % 16 ≠ 0 then .error .notMultipleOfBlock
          else
            match pkcs7Unpad ((cbcDecB D aesKey iv (chunks16 f.ciphertext)).flatten) with
            | .error e => .error e
            | .ok pt => .ok (f.width, f.height, pt)
      else if f.modeName = "CTR" then
        match f.ivOrNonce with
        | none => .error .invalidIVSize
        | some nonce =>
          if nonce.length ≠ 16 then .error .invalidIVSize
          else .ok (f.width, f.height, ctrXcrypt E aesKey nonce f.ciphertext)
      else if f.modeName = "CFB" then
        match f.ivOrNonce with
        | none => .error .invalidIVSize
        | some iv =>
          if iv.length ≠ 16 then .error .invalidIVSize
          else .ok (f.width, f.height, (cfbDecB E aesKey iv (chunks16 f.ciphertext)).flatten)
      else .error .unsupportedMode

/-- `decrypt_image_with_mode` in full: after the core pipeline, the recovered
buffer is reshaped to `(height, width)` (line 483); `numpy` accepts the
reshape exactly when the byte count equals `height * width` and raises
otherwise. -/
def decrypt_image_with_mode (E D : List Nat → List Nat → List Nat)
    (ocbD : List Nat → List Nat → List Nat → List Nat → Option (List Nat))
    (rsaD : OAEPParams → List Nat → Option (List Nat))
    (freshNonce : List Nat) (data wrappedKey : List Nat) :
    Except DecError (List Nat) :=
  match decryptCore E D ocbD rsaD freshNonce data wrappedKey with
  | .error e => .error e
  | .ok (w, h, bs) => if bs.length = h * w then .ok bs else .error .dimensionMismatch

/-! ### The legacy fixed-CBC pair, `encrypt_image_hybrid` / `decrypt_image_hybrid` -/

/-- `encrypt_image_hybrid` (lines 118-183): PKCS7-pad, AES-128-CBC encrypt with
a fresh key and IV, wrap the key with the same OAEP configuration, and write
`width(4) ++ height(4) ++ IV(16) ++ ciphertext` - no mode field and no
iv-length field.  It cannot fail. -/
def encrypt_image_hybrid (E : List Nat → List Nat → List Nat)
    (rsaE : OAEPParams → List Nat → List Nat)
    (ent imgBytes : List Nat) (w h : Nat) : EncOut :=
  let aesKey := ent.take 16
  let iv := (ent.drop 16).take 16
  let ct := (cbcEncB E aesKey iv (chunks16 (pkcs7Pad imgBytes))).flatten
  ⟨natToBytesBE 4 w ++ natToBytesBE 4 h ++ iv ++ ct, rsaE oaepSha256 aesKey⟩

/-- `decrypt_image_hybrid` (lines 186-247): fixed offsets - IV at bytes 8..24,
ciphertext from byte 24 - then RSA unwrap, CBC decrypt, unpad, reshape. -/
def decrypt_image_hybrid (D : List Nat → List Nat → List Nat)
    (rsaD : OAEPParams → List Nat → Option (List Nat))
    (data wrappedKey : List Nat) : Except DecError (List Nat) :=
  let width := bytesToNatBE (pySlice data 0 4)
  let height := bytesToNatBE (pySlice data 4 8)
  let iv := pySlice data 8 24
  let ct := data.drop 24
  match rsaD oaepSha256 wrappedKey with
  | none => .error .keyUnwrapFailed
  | some aesKey =>
    if iv.length ≠ 16 then .error .invalidIVSize
    else if ct.length % 16 ≠ 0 then .error .notMultipleOfBlock
    else
      match pkcs7Unpad ((cbcDecB D aesKey iv (chunks16 ct)).flatten) with
      | .error e => .error e
      | .ok bs => if bs.length = height * width then .ok bs else .error .dimensionMismatch

/-! ### Concrete primitive instances

Trivial instantiations of the abstract primitives, used only to discharge the
primitive-correctness hypotheses of the theorems at concrete inputs. -/

/-- A concrete block permutation: the identity on blocks. -/
def idBlock : List Nat → List Nat → List Nat := fun _ b => b

/-- A concrete OCB encryptor: ciphertext is the plaintext, tag is 16 zero bytes. -/
def ocbEtriv : List Nat → List Nat → List Nat → List Nat × List Nat :=
  fun _ _ pt => (pt, List.replicate 16 0)

/-- The matching OCB verifier: accepts exactly the all-zero 16-byte tag. -/
def ocbDtriv : List Nat → List Nat → List Nat → List Nat → Option (List Nat) :=
  fun _ _ ct tag => if tag = List.replicate 16 0 then some ct else none

/-- A concrete 1024-bit-modulus wrap: pad the key to 128 bytes. -/
def rsaEtriv : OAEPParams → List Nat → List Nat :=
  fun _ k => k ++ List.replicate 112 0

/-- The matching unwrap: recover the first 16 bytes. -/
def rsaDtriv : OAEPParams → List Nat → Option (List Nat) :=
  fun _ c => some (c.take 16)

/-- The shape `chunks16` produces: every block except possibly the last has
exactly 16 bytes, the last is non-empty and at most 16 bytes. -/
inductive GoodChunks : List (List Nat) → Prop where
  | nil : GoodChunks []
  | single (b : List Nat) : b ≠ [] → b.length ≤ 16 → GoodChunks [b]
  | cons (b : List Nat) (bs : List (List Nat)) :
      b.length = 16 → bs ≠ [] → GoodChunks bs → GoodChunks (b :: bs)

/-! ## Lemma layer -/

theorem natToBytesBE_length (n v : Nat) : (natToBytesBE n v).length = n := by
  induction n generalizing v with
  | zero => rfl
  | succ k ih => simp [natToBytesBE, ih]

theorem bytesToNatBE_append_one (l : List Nat) (b : Nat) :
    bytesToNatBE (l ++ [b]) = bytesToNatBE l * 256 + b := by
  simp [bytesToNatBE, List.foldl_append]

theorem bytesToNatBE_natToBytesBE (n v : Nat) :
    bytesToNatBE (natToBytesBE n v) = v % 256 ^ n := by
  induction n generalizing v with
  | zero => simp [natToBytesBE, bytesToNatBE, Nat.mod_one]
  | succ k ih =>
    rw [natToBytesBE, bytesToNatBE_append_one, ih]
    have h1 : 256 ^ (k + 1) = 256 * 256 ^ k := by ring
    have h2 : v % (256 * 256 ^ k) = v % 256 + 256 * (v / 256 % 256 ^ k) := Nat.mod_mul
    rw [h1, h2]
    ring

theorem bytesToNatBE_natToBytesBE_of_lt (n v : Nat) (h : v < 256 ^ n) :
    bytesToNatBE (natToBytesBE n v) = v := by
  rw [bytesToNatBE_natToBytesBE, Nat.mod_eq_of_lt h]

theorem chunksAux_fuel_irrel (f1 : Nat) : ∀ (f2 : Nat) (bs : List Nat),
    bs.length ≤ f1 → bs.length ≤ f2 → chunksAux f1 bs = chunksAux f2 bs := by
  induction f1 with
  | zero =>
    intro f2 bs h1 _
    have hbs : bs = [] := List.eq_nil_of_length_eq_zero (Nat.le_zero.mp h1)
    subst hbs
    cases f2 <;> rfl
  | succ k ih =>
    intro f2 bs h1 h2
    cases bs with
    | nil => cases f2 <;> rfl
    | cons b tl =>
      cases f2 with
      | zero => simp at h2
      | succ g =>
        simp only [chunksAux]
        congr 1
        apply ih
        · simp only [List.length_drop, List.length_cons] at *
          omega
        · simp only [List.length_drop, List.length_cons] at *
          omega

theorem chunks16_cons (bs : List Nat) (h : bs ≠ []) :
    chunks16 bs = bs.take 16 :: chunks16 (bs.drop 16) := by
  obtain ⟨b, tl, rfl⟩ := List.exists_cons_of_ne_nil h
  show chunksAux (b :: tl).length (b :: tl) = _
  rw [List.length_cons, chunksAux]
  congr 1
  exact chunksAux_fuel_irrel tl.length ((b :: tl).drop 16).length ((b :: tl).drop 16)
    (by simp only [List.length_drop, List.length_cons]; omega) (le_refl _)

theorem chunks16_nil : chunks16 [] = [] := rfl

theorem chunksAux_flatten (f : Nat) : ∀ bs : List Nat, bs.length ≤ f →
    (chunksAux f bs).flatten = bs := by
  induction f with
  | zero =>
    intro bs h
    have hbs : bs = [] := List.eq_nil_of_length_eq_zero (Nat.le_zero.mp h)
    subst hbs; rfl
  | succ k ih =>
    intro bs h
    cases bs with
    | nil => rfl
    | cons b tl =>
      simp only [chunksAux, List.flatten_cons]
      rw [ih _ (by simp only [List.length_drop, List.length_cons] at *; omega)]
      exact List.take_append_drop 16 (b :: tl)

theorem chunks16_flatten (bs : List Nat) : (chunks16 bs).flatten = bs :=
  chunksAux_flatten bs.length bs (le_refl _)

theorem chunksAux_ne_nil (f : Nat) (bs : List Nat) (h : bs ≠ []) (hf : bs.length ≤ f) :
    chunksAux f bs ≠ [] := by
  obtain ⟨b, tl, rfl⟩ := List.exists_cons_of_ne_nil h
  cases f with
  | zero => simp at hf
  | succ g => simp [chunksAux]

theorem chunks16_ne_nil (bs : List Nat) (h : bs ≠ []) : chunks16 bs ≠ [] :=
  chunksAux_ne_nil bs.length bs h (le_refl _)

theorem goodChunks_chunksAux (f : Nat) : ∀ bs : List Nat, bs.length ≤ f →
    GoodChunks (chunksAux f bs) := by
  induction f with
  | zero =>
    intro bs h
    have hbs : bs = [] := List.eq_nil_of_length_eq_zero (Nat.le_zero.mp h)
    subst hbs; exact GoodChunks.nil
  | succ k ih =>
    intro bs h
    cases bs with
    | nil => exact GoodChunks.nil
    | cons b tl =>
      simp only [chunksAux]
      by_cases hle : (b :: tl).length ≤ 16
      · have hdrop : (b :: tl).drop 16 = [] := List.drop_eq_nil_of_le hle
        rw [hdrop]
        have hk : chunksAux k ([] : List Nat) = [] := by cases k <;> rfl
        rw [hk]
        exact GoodChunks.single _ (by simp) (by rw [List.length_take]; omega)
      · refine GoodChunks.cons _ _ ?_ ?_
          (ih _ (by simp only [List.length_drop, List.length_cons] at *; omega))
        · simp only [List.length_take, List.length_cons] at *
          omega
        · exact chunksAux_ne_nil k _
            (by simp only [ne_eq, List.drop_eq_nil_iff]; omega)
            (by simp only [List.length_drop, List.length_cons] at *; omega)

theorem goodChunks_chunks16 (bs : List Nat) : GoodChunks (chunks16 bs) :=
  goodChunks_chunksAux bs.length bs (le_refl _)

theorem chunks16_flatten_inv (cs : List (List Nat)) (hg : GoodChunks cs) :
    chunks16 cs.flatten = cs := by
  induction hg with
  | nil => rfl
  | single b hb hle =>
    have hfl : ([b] : List (List Nat)).flatten = b := by simp
    rw [hfl, chunks16_cons b hb, List.take_of_length_le hle,
      List.drop_eq_nil_of_le hle, chunks16_nil]
  | cons b bs h16 hne hg ih =>
    have hfl : (b :: bs).flatten = b ++ bs.flatten := by simp
    have hbne : b ++ bs.flatten ≠ [] := by
      simp only [ne_eq, List.append_eq_nil]
      intro ⟨hb, _⟩
      rw [hb] at h16; simp at h16
    rw [hfl, chunks16_cons _ hbne, List.take_left' h16, List.drop_left' h16, ih]

theorem goodChunks_of_all16 (cs : List (List Nat)) (h : ∀ c ∈ cs, c.length = 16) :
    GoodChunks cs := by
  induction cs with
  | nil => exact GoodChunks.nil
  | cons b bs ih =>
    cases bs with
    | nil =>
      refine GoodChunks.single b ?_ ?_
      · have := h b (by simp); intro hb; rw [hb] at this; simp at this
      · rw [h b (by simp)]
    | cons c cs2 =>
      exact GoodChunks.cons _ _ (h b (by simp)) (by simp)
        (ih (fun x hx => h x (List.mem_cons_of_mem _ hx)))

theorem chunksAux_mem_length (f : Nat) : ∀ bs : List Nat, bs.length ≤ f →
    16 ∣ bs.length → ∀ c ∈ chunksAux f bs, c.length = 16 := by
  induction f with
  | zero =>
    intro bs h _
    have hbs : bs = [] := List.eq_nil_of_length_eq_zero (Nat.le_zero.mp h)
    subst hbs
    simp [show chunksAux 0 ([] : List Nat) = [] from rfl]
  | succ k ih =>
    intro bs h hdvd
    cases bs with
    | nil => simp [show chunksAux (k + 1) ([] : List Nat) = [] from rfl]
    | cons b tl =>
      simp only [chunksAux]
      intro c hc
      obtain ⟨q, hq⟩ := hdvd
      have hq1 : 1 ≤ q := by
        rcases Nat.eq_zero_or_pos q with h0 | h1
        · rw [h0] at hq; simp at hq
        · exact h1
      rcases List.mem_cons.mp hc with rfl | hc2
      · simp only [List.length_take, List.length_cons] at *
        omega
      · refine ih _ (by simp only [List.length_drop, List.length_cons] at *; omega)
          ?_ c hc2
        simp only [List.length_drop, hq]
        exact ⟨q - 1, by omega⟩

theorem chunks16_mem_length (bs : List Nat) (h : 16 ∣ bs.length) :
    ∀ c ∈ chunks16 bs, c.length = 16 :=
  chunksAux_mem_length bs.length bs (le_refl _) h

theorem flatten_length_all16 (cs : List (List Nat)) (h : ∀ c ∈ cs, c.length = 16) :
    cs.flatten.length = 16 * cs.length := by
  induction cs with
  | nil => simp
  | cons b bs ih =>
    simp only [List.flatten_cons, List.length_append, List.length_cons]
    rw [h b (by simp), ih (fun c hc => h c (List.mem_cons_of_mem _ hc))]
    ring

theorem length_listXor (a b : List Nat) : (listXor a b).length = min a.length b.length :=
  List.length_zipWith _ a b

theorem listXor_cancel : ∀ (a b : List Nat), a.length ≤ b.length →
    listXor (listXor a b) b = a := by
  intro a
  induction a with
  | nil => intro b _; rfl
  | cons x xs ih =>
    intro b hb
    cases b with
    | nil => simp at hb
    | cons y ys =>
      simp only [listXor, List.zipWith_cons_cons]
      rw [Nat.xor_cancel_right]
      have := ih ys (by simpa using hb)
      simp only [listXor] at this
      rw [this]

theorem pkcs7Pad_length (bs : List Nat) :
    (pkcs7Pad bs).length = bs.length + (16 - bs.length % 16) := by
  simp [pkcs7Pad]

theorem pkcs7Pad_length_dvd (bs : List Nat) : 16 ∣ (pkcs7Pad bs).length := by
  rw [pkcs7Pad_length]
  have := Nat.mod_lt bs.length (show 0 < 16 by norm_num)
  omega

theorem getLastD_append_ne_nil (l r : List Nat) (hr : r ≠ []) (d : Nat) :
    (l ++ r).getLastD d = r.getLastD d := by
  induction l with
  | nil => rfl
  | cons x xs ih =>
    rw [List.cons_append]
    have hne : xs ++ r ≠ [] := by
      simp only [ne_eq, List.append_eq_nil]
      intro ⟨_, h2⟩; exact hr h2
    obtain ⟨y, ys, hy⟩ := List.exists_cons_of_ne_nil hne
    rw [hy]
    rw [hy] at ih
    simpa [List.getLastD_cons] using ih

theorem getLastD_replicate (v : Nat) : ∀ (k d : Nat),
    (List.replicate k v).getLastD d = if k = 0 then d else v := by
  intro k
  induction k with
  | zero => intro d; rfl
  | succ m ih =>
    intro d
    rw [List.replicate_succ, List.getLastD_cons, ih v]
    by_cases hm : m = 0 <;> simp [hm]

theorem pkcs7Unpad_pkcs7Pad (bs : List Nat) : pkcs7Unpad (pkcs7Pad bs) = .ok bs := by
  have hmod := Nat.mod_lt bs.length (show 0 < 16 by norm_num)
  set n := 16 - bs.length % 16 with hn
  have hn1 : 1 ≤ n := by omega
  have hn16 : n ≤ 16 := by omega
  have hlen : (pkcs7Pad bs).length = bs.length + n := pkcs7Pad_length bs
  have hlast : (pkcs7Pad bs).getLastD 0 = n := by
    rw [pkcs7Pad, getLastD_append_ne_nil _ _ (by simp [List.replicate]; omega),
      getLastD_replicate]
    rw [if_neg (by omega)]
  rw [pkcs7Unpad]
  rw [if_neg (by rw [hlen]; push_neg; constructor <;> omega)]
  simp only [hlast]
  rw [if_neg (by omega)]
  have hdropped : (pkcs7Pad bs).drop ((pkcs7Pad bs).length - n) = List.replicate n n := by
    rw [hlen, pkcs7Pad, Nat.add_sub_cancel]
    exact List.drop_left bs _
  have htaken : (pkcs7Pad bs).take ((pkcs7Pad bs).length - n) = bs := by
    rw [hlen, pkcs7Pad, Nat.add_sub_cancel]
    exact List.take_left bs _
  rw [if_pos]
  · rw [htaken]
  · rw [hdropped]
    simp [List.all_eq_true]

/-! Round-trip and length facts for the per-mode chaining, under the block-cipher
laws the AES implementation guarantees. -/

theorem ecb_roundtrip (E D : List Nat → List Nat → List Nat) (k : List Nat)
    (hD : ∀ b, b.length = 16 → D k (E k b) = b) :
    ∀ bs : List (List Nat), (∀ b ∈ bs, b.length = 16) →
      (bs.map (E k)).map (D k) = bs := by
  intro bs
  induction bs with
  | nil => intro _; rfl
  | cons b tl ih =>
    intro h
    simp only [List.map_cons, List.map_map, Function.comp]
    rw [hD b (h b (by simp))]
    have := ih (fun x hx => h x (List.mem_cons_of_mem _ hx))
    simp only [List.map_map, Function.comp] at this
    rw [this]

theorem ecb_blocks_length (E : List Nat → List Nat → List Nat) (k : List Nat)
    (hE : ∀ b, b.length = 16 → (E k b).length = 16)
    (bs : List (List Nat)) (h : ∀ b ∈ bs, b.length = 16) :
    ∀ c ∈ bs.map (E k), c.length = 16 := by
  intro c hc
  obtain ⟨b, hb, rfl⟩ := List.mem_map.mp hc
  exact hE b (h b hb)

theorem cbc_blocks_length (E : List Nat → List Nat → List Nat) (k : List Nat)
    (hE : ∀ b, b.length = 16 → (E k b).length = 16) :
    ∀ (bs : List (List Nat)) (prev : List Nat), prev.length = 16 →
      (∀ b ∈ bs, b.length = 16) → ∀ c ∈ cbcEncB E k prev bs, c.length = 16 := by
  intro bs
  induction bs with
  | nil => intro prev _ _ c hc; simp [cbcEncB] at hc
  | cons b tl ih =>
    intro prev hprev h c hc
    simp only [cbcEncB] at hc
    have hxl : (listXor b prev).length = 16 := by
      rw [length_listXor, h b (by simp), hprev]
      simp
    rcases List.mem_cons.mp hc with rfl | hc2
    · exact hE _ hxl
    · exact ih _ (hE _ hxl) (fun x hx => h x (List.mem_cons_of_mem _ hx)) c hc2

theorem cbc_roundtrip (E D : List Nat → List Nat → List Nat) (k : List Nat)
    (hE : ∀ b, b.length = 16 → (E k b).length = 16)
    (hD : ∀ b, b.length = 16 → D k (E k b) = b) :
    ∀ (bs : List (List Nat)) (prev : List Nat), prev.length = 16 →
      (∀ b ∈ bs, b.length = 16) →
      cbcDecB D k prev (cbcEncB E k prev bs) = bs := by
  intro bs
  induction bs with
  | nil => intro prev _ _; rfl
  | cons b tl ih =>
    intro prev hprev h
    have hb : b.length = 16 := h b (by simp)
    have hxl : (listXor b prev).length = 16 := by
      rw [length_listXor, hb, hprev]
      simp
    simp only [cbcEncB, cbcDecB]
    rw [hD _ hxl]
    rw [listXor_cancel b prev (by omega)]
    rw [ih _ (hE _ hxl) (fun x hx => h x (List.mem_cons_of_mem _ hx))]

theorem cfb_roundtrip (E : List Nat → List Nat → List Nat) (k : List Nat)
    (hE : ∀ b, b.length = 16 → (E k b).length = 16)
    (cs : List (List Nat)) (hg : GoodChunks cs) :
    ∀ s : List Nat, s.length = 16 → cfbDecB E k s (cfbEncB E k s cs) = cs := by
  induction hg with
  | nil => intro s _; rfl
  | single b hb hle =>
    intro s hs
    simp only [cfbEncB, cfbDecB]
    rw [listXor_cancel b (E k s) (by rw [hE s hs]; omega)]
  | cons b bs h16 hne hg ih =>
    intro s hs
    simp only [cfbEncB, cfbDecB]
    have hks : (E k s).length = 16 := hE s hs
    have hcl : (listXor b (E k s)).length = 16 := by
      rw [length_listXor, h16, hks]
      simp
    rw [listXor_cancel b (E k s) (by omega)]
    rw [ih _ hcl]

theorem cfb_enc_good (E : List Nat → List Nat → List Nat) (k : List Nat)
    (hE : ∀ b, b.length = 16 → (E k b).length = 16)
    (cs : List (List Nat)) (hg : GoodChunks cs) :
    ∀ s : List Nat, s.length = 16 → GoodChunks (cfbEncB E k s cs) := by
  induction hg with
  | nil => intro s _; exact GoodChunks.nil
  | single b hb hle =>
    intro s hs
    simp only [cfbEncB]
    refine GoodChunks.single _ ?_ ?_
    · have : (listXor b (E k s)).length = b.length := by
        rw [length_listXor, hE s hs]
        omega
      intro hx
      rw [hx] at this
      simp at this
      exact hb (List.eq_nil_of_length_eq_zero this.symm)
    · rw [length_listXor]; omega
  | cons b bs h16 hne hg ih =>
    intro s hs
    simp only [cfbEncB]
    have hks : (E k s).length = 16 := hE s hs
    have hcl : (listXor b (E k s)).length = 16 := by
      rw [length_listXor, h16, hks]
      simp
    refine GoodChunks.cons _ _ hcl ?_ (ih _ hcl)
    cases hg with
    | nil => exact absurd rfl hne
    | single c hc _ => simp [cfbEncB]
    | cons c cs2 _ _ _ => simp [cfbEncB]

theorem cfb_enc_flatten_length (E : List Nat → List Nat → List Nat) (k : List Nat)
    (hE : ∀ b, b.length = 16 → (E k b).length = 16)
    (cs : List (List Nat)) (hg : GoodChunks cs) :
    ∀ s : List Nat, s.length = 16 →
      (cfbEncB E k s cs).flatten.length = cs.flatten.length := by
  induction hg with
  | nil => intro s _; rfl
  | single b hb hle =>
    intro s hs
    simp only [cfbEncB, List.flatten_cons]
    simp [length_listXor, hE s hs]
    omega
  | cons b bs h16 hne hg ih =>
    intro s hs
    simp only [cfbEncB, List.flatten_cons, List.length_append]
    have hks : (E k s).length = 16 := hE s hs
    have hcl : (listXor b (E k s)).length = 16 := by
      rw [length_listXor, h16, hks]
      simp
    rw [ih _ hcl, length_listXor, h16, hks]
    simp

theorem cbcEncB_length_count (E : List Nat → List Nat → List Nat) (k : List Nat) :
    ∀ (bs : List (List Nat)) (prev : List Nat),
      (cbcEncB E k prev bs).length = bs.length := by
  intro bs
  induction bs with
  | nil => intro prev; rfl
  | cons b tl ih => intro prev; simp only [cbcEncB, List.length_cons, ih]

theorem ctrKeystream_length (E : List Nat → List Nat → List Nat) (k nonce : List Nat)
    (hE : ∀ b, b.length = 16 → (E k b).length = 16) (n : Nat) :
    (ctrKeystream E k nonce n).length = 16 * n := by
  rw [ctrKeystream, flatten_length_all16, List.length_map, List.length_range]
  intro c hc
  obtain ⟨i, _, rfl⟩ := List.mem_map.mp hc
  exact hE _ (natToBytesBE_length 16 _)

theorem ctrXcrypt_length (E : List Nat → List Nat → List Nat) (k nonce : List Nat)
    (hE : ∀ b, b.length = 16 → (E k b).length = 16) (data : List Nat) :
    (ctrXcrypt E k nonce data).length = data.length := by
  rw [ctrXcrypt, length_listXor, ctrKeystream_length E k nonce hE]
  omega

theorem ctr_roundtrip (E : List Nat → List Nat → List Nat) (k nonce : List Nat)
    (hE : ∀ b, b.length = 16 → (E k b).length = 16) (pt : List Nat) :
    ctrXcrypt E k nonce (ctrXcrypt E k nonce pt) = pt := by
  have hlen : (ctrXcrypt E k nonce pt).length = pt.length := ctrXcrypt_length E k nonce hE pt
  rw [ctrXcrypt, hlen]
  rw [show ctrXcrypt E k nonce pt = listXor pt (ctrKeystream E k nonce ((pt.length + 15) / 16)) from rfl]
  exact listXor_cancel pt _ (by rw [ctrKeystream_length E k nonce hE]; omega)

/-! Reading back an encoded container. -/

theorem modeField_eq_strBytes (m : String) (h : (strBytes m).length = 3) :
    modeField m = strBytes m := by
  simp [modeField, h]

theorem decodeContainer_encode (w h ivLen : Nat) (m : String) (iv rest : List Nat)
    (hw : w < 2 ^ 32) (hh : h < 2 ^ 32)
    (hm3 : (strBytes m).length = 3)
    (hdec : asciiDecode (rstripNul (strBytes m)) = some m)
    (hnotOCB : m ≠ "OCB")
    (hivLen : iv.length = ivLen) (hlt : ivLen < 2 ^ 16) :
    decodeContainer (natToBytesBE 4 w ++ (natToBytesBE 4 h ++ (modeField m ++
      (natToBytesBE 2 ivLen ++ (iv ++ rest))))) =
      .ok ⟨w, h, m, ivLen, if 0 < ivLen then some iv else none, rest, none⟩ := by
  set data := natToBytesBE 4 w ++ (natToBytesBE 4 h ++ (modeField m ++
    (natToBytesBE 2 ivLen ++ (iv ++ rest)))) with hdata
  have hA : (natToBytesBE 4 w).length = 4 := natToBytesBE_length 4 w
  have hB : (natToBytesBE 4 h).length = 4 := natToBytesBE_length 4 h
  have hM : (modeField m).length = 3 := by rw [modeField_eq_strBytes m hm3, hm3]
  have hL : (natToBytesBE 2 ivLen).length = 2 := natToBytesBE_length 2 ivLen
  have d4 : data.drop 4 = natToBytesBE 4 h ++ (modeField m ++
      (natToBytesBE 2 ivLen ++ (iv ++ rest))) := List.drop_left' hA
  have d8 : data.drop 8 = modeField m ++ (natToBytesBE 2 ivLen ++ (iv ++ rest)) := by
    rw [show (8 : Nat) = 4 + 4 from rfl, ← List.drop_drop, d4]
    exact List.drop_left' hB
  have d11 : data.drop 11 = natToBytesBE 2 ivLen ++ (iv ++ rest) := by
    rw [show (11 : Nat) = 8 + 3 from rfl, ← List.drop_drop, d8]
    exact List.drop_left' hM
  have d13 : data.drop 13 = iv ++ rest := by
    rw [show (13 : Nat) = 11 + 2 from rfl, ← List.drop_drop, d11]
    exact List.drop_left' hL
  have s04 : pySlice data 0 4 = natToBytesBE 4 w := by
    rw [pySlice, List.drop_zero]
    exact List.take_left' hA
  have s48 : pySlice data 4 8 = natToBytesBE 4 h := by
    rw [pySlice, d4]
    exact List.take_left' hB
  have s811 : pySlice data 8 11 = modeField m := by
    rw [pySlice, d8]
    exact List.take_left' hM
  have s1113 : pySlice data 11 13 = natToBytesBE 2 ivLen := by
    rw [pySlice, d11]
    exact List.take_left' hL
  have siv : pySlice data 13 (13 + ivLen) = iv := by
    rw [pySlice, d13, Nat.add_sub_cancel_left]
    exact List.take_left' hivLen
  have sct : data.drop (13 + ivLen) = rest := by
    rw [← List.drop_drop, d13]
    exact List.drop_left' hivLen
  have hwv : bytesToNatBE (pySlice data 0 4) = w := by
    rw [s04]
    exact bytesToNatBE_natToBytesBE_of_lt 4 w (by norm_num at hw ⊢; omega)
  have hhv : bytesToNatBE (pySlice data 4 8) = h := by
    rw [s48]
    exact bytesToNatBE_natToBytesBE_of_lt 4 h (by norm_num at hh ⊢; omega)
  have hlv : bytesToNatBE (pySlice data 11 13) = ivLen := by
    rw [s1113]
    exact bytesToNatBE_natToBytesBE_of_lt 2 ivLen (by norm_num at hlt ⊢; omega)
  rw [decodeContainer]
  simp only [s811, modeField_eq_strBytes m hm3, hdec, hwv, hhv, hlv, siv, sct]
  rw [if_neg hnotOCB]

theorem decodeContainer_encode_ocb (w h : Nat) (nonce ct tag : List Nat)
    (hw : w < 2 ^ 32) (hh : h < 2 ^ 32)
    (hnonce : nonce.length = 15) (htag : tag.length = 16) :
    decodeContainer (natToBytesBE 4 w ++ (natToBytesBE 4 h ++ (modeField "OCB" ++
      (natToBytesBE 2 15 ++ (nonce ++ (ct ++ tag)))))) =
      .ok ⟨w, h, "OCB", 15, some nonce, ct, some tag⟩ := by
  set data := natToBytesBE 4 w ++ (natToBytesBE 4 h ++ (modeField "OCB" ++
    (natToBytesBE 2 15 ++ (nonce ++ (ct ++ tag))))) with hdata
  have hA : (natToBytesBE 4 w).length = 4 := natToBytesBE_length 4 w
  have hB : (natToBytesBE 4 h).length = 4 := natToBytesBE_length 4 h
  have hM : (modeField "OCB").length = 3 := rfl
  have hL : (natToBytesBE 2 15).length = 2 := natToBytesBE_length 2 15
  have d4 : data.drop 4 = natToBytesBE 4 h ++ (modeField "OCB" ++
      (natToBytesBE 2 15 ++ (nonce ++ (ct ++ tag)))) := List.drop_left' hA
  have d8 : data.drop 8 = modeField "OCB" ++ (natToBytesBE 2 15 ++ (nonce ++ (ct ++ tag))) := by
    rw [show (8 : Nat) = 4 + 4 from rfl, ← List.drop_drop, d4]
    exact List.drop_left' hB
  have d11 : data.drop 11 = natToBytesBE 2 15 ++ (nonce ++ (ct ++ tag)) := by
    rw [show (11 : Nat) = 8 + 3 from rfl, ← List.drop_drop, d8]
    exact List.drop_left' hM
  have d13 : data.drop 13 = nonce ++ (ct ++ tag) := by
    rw [show (13 : Nat) = 11 + 2 from rfl, ← List.drop_drop, d11]
    exact List.drop_left' hL
  have d28 : data.drop 28 = ct ++ tag := by
    rw [show (28 : Nat) = 13 + 15 from rfl, ← List.drop_drop, d13]
    exact List.drop_left' hnonce
  have hdl : data.length = 44 + ct.length := by
    rw [hdata]
    simp only [List.length_append, hA, hB, hM, hL, hnonce, htag]
    omega
  have s04 : pySlice data 0 4 = natToBytesBE 4 w := by
    rw [pySlice, List.drop_zero]
    exact List.take_left' hA
  have s48 : pySlice data 4 8 = natToBytesBE 4 h := by
    rw [pySlice, d4]
    exact List.take_left' hB
  have s811 : pySlice data 8 11 = modeField "OCB" := by
    rw [pySlice, d8]
    exact List.take_left' hM
  have s1113 : pySlice data 11 13 = natToBytesBE 2 15 := by
    rw [pySlice, d11]
    exact List.take_left' hL
  have siv : pySlice data 13 (13 + 15) = nonce := by
    rw [pySlice, d13]
    exact List.take_left' hnonce
  have hsct : pySliceToNeg16 data (13 + 15) = ct := by
    rw [pySliceToNeg16, hdl, ← List.drop_drop, d13, List.drop_left' hnonce,
      show 44 + ct.length - 16 - (13 + 15) = ct.length from by omega]
    exact List.take_left ct tag
  have hstag : pyLast16 data = tag := by
    rw [pyLast16, hdl,
      show 44 + ct.length - 16 = 28 + ct.length from by omega, ← List.drop_drop, d28]
    exact List.drop_left' rfl
  have hwv : bytesToNatBE (pySlice data 0 4) = w := by
    rw [s04]
    exact bytesToNatBE_natToBytesBE_of_lt 4 w (by norm_num at hw ⊢; omega)
  have hhv : bytesToNatBE (pySlice data 4 8) = h := by
    rw [s48]
    exact bytesToNatBE_natToBytesBE_of_lt 4 h (by norm_num at hh ⊢; omega)
  have hlv : bytesToNatBE (pySlice data 11 13) = 15 := by
    rw [s1113]
    exact bytesToNatBE_natToBytesBE_of_lt 2 15 (by norm_num)
  rw [decodeContainer]
  simp only [s811, show asciiDecode (rstripNul (modeField "OCB")) = some "OCB" from rfl,
    hwv, hhv, hlv, siv, hsct, hstag]
  simp

/-! Unfolding the encryption dispatch at each of the five (uppercased) mode names. -/

theorem encrypt_eq_ECB (E : List Nat → List Nat → List Nat)
    (ocbE : List Nat → List Nat → List Nat → List Nat × List Nat)
    (rsaE : OAEPParams → List Nat → List Nat) (ent imgBytes : List Nat) (w h : Nat) :
    encrypt_image_with_mode E ocbE rsaE ent imgBytes w h "ECB" =
      (.ok ⟨natToBytesBE 4 w ++ natToBytesBE 4 h ++ modeField "ECB" ++ natToBytesBE 2 0 ++
        ((chunks16 (pkcs7Pad imgBytes)).map (E (ent.take 16))).flatten,
        rsaE oaepSha256 (ent.take 16)⟩, 16) := rfl

theorem encrypt_eq_CBC (E : List Nat → List Nat → List Nat)
    (ocbE : List Nat → List Nat → List Nat → List Nat × List Nat)
    (rsaE : OAEPParams → List Nat → List Nat) (ent imgBytes : List Nat) (w h : Nat) :
    encrypt_image_with_mode E ocbE rsaE ent imgBytes w h "CBC" =
      (.ok ⟨natToBytesBE 4 w ++ natToBytesBE 4 h ++ modeField "CBC" ++ natToBytesBE 2 16 ++
        (ent.drop 16).take 16 ++
        (cbcEncB E (ent.take 16) ((ent.drop 16).take 16) (chunks16 (pkcs7Pad imgBytes))).flatten,
        rsaE oaepSha256 (ent.take 16)⟩, 32) := rfl

theorem encrypt_eq_CTR (E : List Nat → List Nat → List Nat)
    (ocbE : List Nat → List Nat → List Nat → List Nat × List Nat)
    (rsaE : OAEPParams → List Nat → List Nat) (ent imgBytes : List Nat) (w h : Nat) :
    encrypt_image_with_mode E ocbE rsaE ent imgBytes w h "CTR" =
      (.ok ⟨natToBytesBE 4 w ++ natToBytesBE 4 h ++ modeField "CTR" ++ natToBytesBE 2 16 ++
        (ent.drop 16).take 16 ++
        ctrXcrypt E (ent.take 16) ((ent.drop 16).take 16) imgBytes,
        rsaE oaepSha256 (ent.take 16)⟩, 32) := rfl

theorem encrypt_eq_CFB (E : List Nat → List Nat → List Nat)
    (ocbE : List Nat → List Nat → List Nat → List Nat × List Nat)
    (rsaE : OAEPParams → List Nat → List Nat) (ent imgBytes : List Nat) (w h : Nat) :
    encrypt_image_with_mode E ocbE rsaE ent imgBytes w h "CFB" =
      (.ok ⟨natToBytesBE 4 w ++ natToBytesBE 4 h ++ modeField "CFB" ++ natToBytesBE 2 16 ++
        (ent.drop 16).take 16 ++
        (cfbEncB E (ent.take 16) ((ent.drop 16).take 16) (chunks16 imgBytes)).flatten,
        rsaE oaepSha256 (ent.take 16)⟩, 32) := rfl

theorem encrypt_eq_OCB (E : List Nat → List Nat → List Nat)
    (ocbE : List Nat → List Nat → List Nat → List Nat × List Nat)
    (rsaE : OAEPParams → List Nat → List Nat) (ent imgBytes : List Nat) (w h : Nat) :
    encrypt_image_with_mode E ocbE rsaE ent imgBytes w h "OCB" =
      (.ok ⟨natToBytesBE 4 w ++ natToBytesBE 4 h ++ modeField "OCB" ++ natToBytesBE 2 15 ++
        (ent.drop 16).take 15 ++
        (ocbE (ent.take 16) ((ent.drop 16).take 15) imgBytes).1 ++
        (ocbE (ent.take 16) ((ent.drop 16).take 15) imgBytes).2,
        rsaE oaepSha256 (ent.take 16)⟩, 31) := rfl

/-! ## Claim theorems -/
/-- Claim C1: for every supported mode in ECB/CBC/CTR/CFB/OCB and every grayscale
plaintext buffer with `len = width * height` for positive width and height,
decrypting the container and wrapped key produced by encryption (using a
matching RSA key pair, i.e. an unwrap that inverts the wrap, and the block-cipher
and OCB laws the AES libraries guarantee) yields a byte buffer identical to the
original plaintext buffer. -/
theorem c1_round_trip
    (E D : List Nat → List Nat → List Nat)
    (ocbE : List Nat → List Nat → List Nat → List Nat × List Nat)
    (ocbD : List Nat → List Nat → List Nat → List Nat → Option (List Nat))
    (rsaE : OAEPParams → List Nat → List Nat)
    (rsaD : OAEPParams → List Nat → Option (List Nat))
    (freshNonce : List Nat)
    (hE : ∀ k b, b.length = 16 → (E k b).length = 16)
    (hD : ∀ k b, b.length = 16 → D k (E k b) = b)
    (hOcbLen : ∀ k n pt, (ocbE k n pt).1.length = pt.length ∧ (ocbE k n pt).2.length = 16)
    (hOcbRT : ∀ k n pt, ocbD k n (ocbE k n pt).1 (ocbE k n pt).2 = some pt)
    (hRsa : ∀ k, k.length = 16 → rsaD oaepSha256 (rsaE oaepSha256 k) = some k)
    (ent imgBytes : List Nat) (w h : Nat) (m : String)
    (hm : m ∈ knownModes)
    (hw : 0 < w) (hh : 0 < h) (hw32 : w < 2 ^ 32) (hh32 : h < 2 ^ 32)
    (himg : imgBytes.length = w * h) (hent : 32 ≤ ent.length)
    (cont wk : List Nat)
    (henc : (encrypt_image_with_mode E ocbE rsaE ent imgBytes w h m).1 = .ok ⟨cont, wk⟩) :
    decrypt_image_with_mode E D ocbD rsaD freshNonce cont wk = .ok imgBytes := by
  have hkey : (ent.take 16).length = 16 := by rw [List.length_take]; omega
  have hiv : ((ent.drop 16).take 16).length = 16 := by
    rw [List.length_take, List.length_drop]; omega
  have hnonce15 : ((ent.drop 16).take 15).length = 15 := by
    rw [List.length_take, List.length_drop]; omega
  have hlenHW : imgBytes.length = h * w := by rw [himg, Nat.mul_comm]
  simp only [knownModes, List.mem_cons, List.not_mem_nil, or_false] at hm
  rcases hm with rfl | rfl | rfl | rfl | rfl
  · -- ECB
    rw [encrypt_eq_ECB] at henc
    simp only [Except.ok.injEq, EncOut.mk.injEq] at henc
    obtain ⟨hcont, hwk⟩ := henc
    subst hcont hwk
    have hblocks : ∀ c ∈ chunks16 (pkcs7Pad imgBytes), c.length = 16 :=
      chunks16_mem_length _ (pkcs7Pad_length_dvd _)
    have hctblocks : ∀ c ∈ (chunks16 (pkcs7Pad imgBytes)).map (E (ent.take 16)), c.length = 16 :=
      ecb_blocks_length E (ent.take 16) (fun b hb => hE _ b hb) _ hblocks
    have hctlen : (((chunks16 (pkcs7Pad imgBytes)).map (E (ent.take 16))).flatten).length % 16 = 0 := by
      rw [flatten_length_all16 _ hctblocks]
      omega
    have hdec := decodeContainer_encode w h 0 "ECB" []
      (((chunks16 (pkcs7Pad imgBytes)).map (E (ent.take 16))).flatten)
      hw32 hh32 rfl rfl (by decide) rfl (by norm_num)
    rw [List.nil_append] at hdec
    rw [decrypt_image_with_mode, decryptCore]
    simp only [List.append_assoc]
    rw [hdec]
    simp only [hRsa _ hkey]
    rw [if_neg (show ¬(("ECB" : String) = "OCB") by decide)]
    rw [if_pos (show True from trivial)]
    rw [if_neg (not_not_intro hctlen)]
    rw [chunks16_flatten_inv _ (goodChunks_of_all16 _ hctblocks)]
    rw [ecb_roundtrip E D (ent.take 16) (fun b hb => hD _ b hb) _ hblocks]
    rw [chunks16_flatten, pkcs7Unpad_pkcs7Pad]
    simp [hlenHW]
  · -- CBC
    rw [encrypt_eq_CBC] at henc
    simp only [Except.ok.injEq, EncOut.mk.injEq] at henc
    obtain ⟨hcont, hwk⟩ := henc
    subst hcont hwk
    have hblocks : ∀ c ∈ chunks16 (pkcs7Pad imgBytes), c.length = 16 :=
      chunks16_mem_length _ (pkcs7Pad_length_dvd _)
    have hctblocks : ∀ c ∈ cbcEncB E (ent.take 16) ((ent.drop 16).take 16)
        (chunks16 (pkcs7Pad imgBytes)), c.length = 16 :=
      cbc_blocks_length E (ent.take 16) (fun b hb => hE _ b hb) _ _ hiv hblocks
    have hctlen : ((cbcEncB E (ent.take 16) ((ent.drop 16).take 16)
        (chunks16 (pkcs7Pad imgBytes))).flatten).length % 16 = 0 := by
      rw [flatten_length_all16 _ hctblocks]
      omega
    have hdec := decodeContainer_encode w h 16 "CBC" ((ent.drop 16).take 16)
      ((cbcEncB E (ent.take 16) ((ent.drop 16).take 16) (chunks16 (pkcs7Pad imgBytes))).flatten)
      hw32 hh32 rfl rfl (by decide) hiv (by norm_num)
    rw [decrypt_image_with_mode, decryptCore]
    simp only [List.append_assoc]
    rw [hdec]
    simp only [hRsa _ hkey]
    rw [if_neg (show ¬(("CBC" : String) = "OCB") by decide)]
    rw [if_neg (show ¬(("CBC" : String) = "ECB") by decide)]
    rw [if_pos (show True from trivial)]
    rw [if_pos (show (0 : Nat) < 16 by norm_num)]
    simp only []
    rw [if_neg (not_not_intro hiv)]
    rw [if_neg (not_not_intro hctlen)]
    rw [chunks16_flatten_inv _ (goodChunks_of_all16 _ hctblocks)]
    rw [cbc_roundtrip E D (ent.take 16) (fun b hb => hE _ b hb) (fun b hb => hD _ b hb)
      _ _ hiv hblocks]
    rw [chunks16_flatten, pkcs7Unpad_pkcs7Pad]
    simp [hlenHW]
  · -- CTR
    rw [encrypt_eq_CTR] at henc
    simp only [Except.ok.injEq, EncOut.mk.injEq] at henc
    obtain ⟨hcont, hwk⟩ := henc
    subst hcont hwk
    have hdec := decodeContainer_encode w h 16 "CTR" ((ent.drop 16).take 16)
      (ctrXcrypt E (ent.take 16) ((ent.drop 16).take 16) imgBytes)
      hw32 hh32 rfl rfl (by decide) hiv (by norm_num)
    rw [decrypt_image_with_mode, decryptCore]
    simp only [List.append_assoc]
    rw [hdec]
    simp only [hRsa _ hkey]
    rw [if_neg (show ¬(("CTR" : String) = "OCB") by decide)]
    rw [if_neg (show ¬(("CTR" : String) = "ECB") by decide)]
    rw [if_neg (show ¬(("CTR" : String) = "CBC") by decide)]
    rw [if_pos (show True from trivial)]
    rw [if_pos (show (0 : Nat) < 16 by norm_num)]
    simp only []
    rw [if_neg (not_not_intro hiv)]
    rw [ctr_roundtrip E (ent.take 16) ((ent.drop 16).take 16) (fun b hb => hE _ b hb)]
    simp [hlenHW]
  · -- CFB
    rw [encrypt_eq_CFB] at henc
    simp only [Except.ok.injEq, EncOut.mk.injEq] at henc
    obtain ⟨hcont, hwk⟩ := henc
    subst hcont hwk
    have hgood : GoodChunks (chunks16 imgBytes) := goodChunks_chunks16 imgBytes
    have hencgood : GoodChunks (cfbEncB E (ent.take 16) ((ent.drop 16).take 16)
        (chunks16 imgBytes)) :=
      cfb_enc_good E (ent.take 16) (fun b hb => hE _ b hb) _ hgood _ hiv
    have hdec := decodeContainer_encode w h 16 "CFB" ((ent.drop 16).take 16)
      ((cfbEncB E (ent.take 16) ((ent.drop 16).take 16) (chunks16 imgBytes)).flatten)
      hw32 hh32 rfl rfl (by decide) hiv (by norm_num)
    rw [decrypt_image_with_mode, decryptCore]
    simp only [List.append_assoc]
    rw [hdec]
    simp only [hRsa _ hkey]
    rw [if_neg (show ¬(("CFB" : String) = "OCB") by decide)]
    rw [if_neg (show ¬(("CFB" : String) = "ECB") by decide)]
    rw [if_neg (show ¬(("CFB" : String) = "CBC") by decide)]
    rw [if_neg (show ¬(("CFB" : String) = "CTR") by decide)]
    rw [if_pos (show True from trivial)]
    rw [if_pos (show (0 : Nat) < 16 by norm_num)]
    simp only []
    rw [if_neg (not_not_intro hiv)]
    rw [chunks16_flatten_inv _ hencgood]
    rw [cfb_roundtrip E (ent.take 16) (fun b hb => hE _ b hb) _ hgood _ hiv]
    rw [chunks16_flatten]
    simp [hlenHW]
  · -- OCB
    rw [encrypt_eq_OCB] at henc
    simp only [Except.ok.injEq, EncOut.mk.injEq] at henc
    obtain ⟨hcont, hwk⟩ := henc
    subst hcont hwk
    have htag : ((ocbE (ent.take 16) ((ent.drop 16).take 15) imgBytes).2).length = 16 :=
      (hOcbLen _ _ _).2
    have hdec := decodeContainer_encode_ocb w h ((ent.drop 16).take 15)
      ((ocbE (ent.take 16) ((ent.drop 16).take 15) imgBytes).1)
      ((ocbE (ent.take 16) ((ent.drop 16).take 15) imgBytes).2)
      hw32 hh32 hnonce15 htag
    rw [decrypt_image_with_mode, decryptCore]
    simp only [List.append_assoc]
    rw [hdec]
    simp only [hRsa _ hkey]
    rw [if_pos (show True from trivial)]
    rw [if_neg (show ¬(((ent.drop 16).take 15).length = 0 ∨
        15 < ((ent.drop 16).take 15).length) by rw [hnonce15]; decide)]
    simp only [Option.getD_some]
    rw [hOcbRT]
    simp [hlenHW]

/-- Witness for C1: a concrete CBC round-trip of the 2x2 buffer `[9,8,7,6]`
under the trivial primitive instances. -/
theorem c1_round_trip_witness :
    decrypt_image_with_mode idBlock idBlock ocbDtriv rsaDtriv []
      (natToBytesBE 4 2 ++ natToBytesBE 4 2 ++ modeField "CBC" ++ natToBytesBE 2 16 ++
        ((List.range 32).drop 16).take 16 ++
        (cbcEncB idBlock ((List.range 32).take 16) (((List.range 32).drop 16).take 16)
          (chunks16 (pkcs7Pad [9, 8, 7, 6]))).flatten)
      (rsaEtriv oaepSha256 ((List.range 32).take 16)) = .ok [9, 8, 7, 6] :=
  c1_round_trip idBlock idBlock ocbEtriv ocbDtriv rsaEtriv rsaDtriv []
    (fun _ _ hb => hb)
    (fun _ _ _ => rfl)
    (fun _ _ pt => ⟨rfl, by simp [ocbEtriv]⟩)
    (fun _ _ pt => by simp [ocbEtriv, ocbDtriv])
    (fun k hk => by simp [rsaEtriv, rsaDtriv, List.take_left' hk])
    (List.range 32) [9, 8, 7, 6] 2 2 "CBC" (by decide)
    (by decide) (by decide) (by norm_num) (by norm_num)
    (by decide) (by simp)
    _ _ rfl

/-- Claim C2: every successful encryption writes exactly 4-byte big-endian width,
4-byte big-endian height, 3 null-padded ASCII mode bytes, a 2-byte big-endian
iv/nonce length holding the mode's fixed value (0 for ECB, 16 for CBC/CTR/CFB,
15 for OCB), the iv/nonce bytes (absent when the length is 0), the ciphertext,
and a trailing 16-byte tag only for OCB; and the decoder reads the same fields
back in that order. -/
theorem c2_container_layout
    (E : List Nat → List Nat → List Nat)
    (ocbE : List Nat → List Nat → List Nat → List Nat × List Nat)
    (rsaE : OAEPParams → List Nat → List Nat)
    (hTag : ∀ k n pt, (ocbE k n pt).2.length = 16)
    (ent imgBytes : List Nat) (w h : Nat) (m : String)
    (hm : m ∈ knownModes)
    (hw32 : w < 2 ^ 32) (hh32 : h < 2 ^ 32) (hent : 32 ≤ ent.length)
    (cont wk : List Nat)
    (henc : (encrypt_image_with_mode E ocbE rsaE ent imgBytes w h m).1 = .ok ⟨cont, wk⟩) :
    ∃ iv ct tg : List Nat,
      iv.length = (if m = "ECB" then 0 else if m = "OCB" then 15 else 16) ∧
      tg.length = (if m = "OCB" then 16 else 0) ∧
      cont = natToBytesBE 4 w ++ natToBytesBE 4 h ++ modeField m ++
        natToBytesBE 2 iv.length ++ iv ++ ct ++ tg ∧
      decodeContainer cont = .ok ⟨w, h, m, iv.length,
        (if 0 < iv.length then some iv else none), ct,
        (if m = "OCB" then some tg else none)⟩ := by
  have hiv : ((ent.drop 16).take 16).length = 16 := by
    rw [List.length_take, List.length_drop]; omega
  have hnonce15 : ((ent.drop 16).take 15).length = 15 := by
    rw [List.length_take, List.length_drop]; omega
  simp only [knownModes, List.mem_cons, List.not_mem_nil, or_false] at hm
  rcases hm with rfl | rfl | rfl | rfl | rfl
  · -- ECB
    rw [encrypt_eq_ECB] at henc
    simp only [Except.ok.injEq, EncOut.mk.injEq] at henc
    obtain ⟨hcont, hwk⟩ := henc
    subst hcont hwk
    refine ⟨[], ((chunks16 (pkcs7Pad imgBytes)).map (E (ent.take 16))).flatten, [], ?_, ?_, ?_, ?_⟩
    · simp
    · simp
    · simp
    · have hdec := decodeContainer_encode w h 0 "ECB" []
        (((chunks16 (pkcs7Pad imgBytes)).map (E (ent.take 16))).flatten)
        hw32 hh32 rfl rfl (by decide) rfl (by norm_num)
      rw [List.nil_append] at hdec
      simp only [List.append_assoc, List.length_nil]
      simpa using hdec
  · -- CBC
    rw [encrypt_eq_CBC] at henc
    simp only [Except.ok.injEq, EncOut.mk.injEq] at henc
    obtain ⟨hcont, hwk⟩ := henc
    subst hcont hwk
    refine ⟨(ent.drop 16).take 16,
      (cbcEncB E (ent.take 16) ((ent.drop 16).take 16) (chunks16 (pkcs7Pad imgBytes))).flatten,
      [], ?_, ?_, ?_, ?_⟩
    · simpa using hiv
    · simp
    · rw [hiv]; simp
    · have hdec := decodeContainer_encode w h 16 "CBC" ((ent.drop 16).take 16)
        ((cbcEncB E (ent.take 16) ((ent.drop 16).take 16) (chunks16 (pkcs7Pad imgBytes))).flatten)
        hw32 hh32 rfl rfl (by decide) hiv (by norm_num)
      rw [hiv]
      simp only [List.append_assoc]
      simpa using hdec
  · -- CTR
    rw [encrypt_eq_CTR] at henc
    simp only [Except.ok.injEq, EncOut.mk.injEq] at henc
    obtain ⟨hcont, hwk⟩ := henc
    subst hcont hwk
    refine ⟨(ent.drop 16).take 16,
      ctrXcrypt E (ent.take 16) ((ent.drop 16).take 16) imgBytes, [], ?_, ?_, ?_, ?_⟩
    · simpa using hiv
    · simp
    · rw [hiv]; simp
    · have hdec := decodeContainer_encode w h 16 "CTR" ((ent.drop 16).take 16)
        (ctrXcrypt E (ent.take 16) ((ent.drop 16).take 16) imgBytes)
        hw32 hh32 rfl rfl (by decide) hiv (by norm_num)
      rw [hiv]
      simp only [List.append_assoc]
      simpa using hdec
  · -- CFB
    rw [encrypt_eq_CFB] at henc
    simp only [Except.ok.injEq, EncOut.mk.injEq] at henc
    obtain ⟨hcont, hwk⟩ := henc
    subst hcont hwk
    refine ⟨(ent.drop 16).take 16,
      (cfbEncB E (ent.take 16) ((ent.drop 16).take 16) (chunks16 imgBytes)).flatten,
      [], ?_, ?_, ?_, ?_⟩
    · simpa using hiv
    · simp
    · rw [hiv]; simp
    · have hdec := decodeContainer_encode w h 16 "CFB" ((ent.drop 16).take 16)
        ((cfbEncB E (ent.take 16) ((ent.drop 16).take 16) (chunks16 imgBytes)).flatten)
        hw32 hh32 rfl rfl (by decide) hiv (by norm_num)
      rw [hiv]
      simp only [List.append_assoc]
      simpa using hdec
  · -- OCB
    rw [encrypt_eq_OCB] at henc
    simp only [Except.ok.injEq, EncOut.mk.injEq] at henc
    obtain ⟨hcont, hwk⟩ := henc
    subst hcont hwk
    refine ⟨(ent.drop 16).take 15,
      (ocbE (ent.take 16) ((ent.drop 16).take 15) imgBytes).1,
      (ocbE (ent.take 16) ((ent.drop 16).take 15) imgBytes).2, ?_, ?_, ?_, ?_⟩
    · simpa using hnonce15
    · simpa using hTag _ _ _
    · rw [hnonce15]
    · have hdec := decodeContainer_encode_ocb w h ((ent.drop 16).take 15)
        ((ocbE (ent.take 16) ((ent.drop 16).take 15) imgBytes).1)
        ((ocbE (ent.take 16) ((ent.drop 16).take 15) imgBytes).2)
        hw32 hh32 hnonce15 (hTag _ _ _)
      rw [hnonce15]
      simp only [List.append_assoc]
      simpa using hdec

/-- Witness for C2: the concrete OCB container for the 3x1 buffer `[1,2,3]`. -/
theorem c2_container_layout_witness :
    ∃ iv ct tg : List Nat,
      iv.length = (if ("OCB" : String) = "ECB" then 0 else if ("OCB" : String) = "OCB" then 15 else 16) ∧
      tg.length = (if ("OCB" : String) = "OCB" then 16 else 0) ∧
      (natToBytesBE 4 3 ++ natToBytesBE 4 1 ++ modeField "OCB" ++ natToBytesBE 2 15 ++
        ((List.range 32).drop 16).take 15 ++ [1, 2, 3] ++ List.replicate 16 0) =
        natToBytesBE 4 3 ++ natToBytesBE 4 1 ++ modeField "OCB" ++
          natToBytesBE 2 iv.length ++ iv ++ ct ++ tg ∧
      decodeContainer (natToBytesBE 4 3 ++ natToBytesBE 4 1 ++ modeField "OCB" ++
          natToBytesBE 2 15 ++ ((List.range 32).drop 16).take 15 ++ [1, 2, 3] ++
          List.replicate 16 0) =
        .ok ⟨3, 1, "OCB", iv.length, (if 0 < iv.length then some iv else none), ct,
          (if ("OCB" : String) = "OCB" then some tg else none)⟩ :=
  c2_container_layout idBlock ocbEtriv rsaEtriv
    (fun _ _ _ => by simp [ocbEtriv])
    (List.range 32) [1, 2, 3] 3 1 "OCB" (by decide)
    (by norm_num) (by norm_num) (by simp)
    _ _ rfl

/-- Counterexample to claim C3: an 11-byte buffer — shorter than the 13-byte
minimum header — whose bytes 8..10 spell `ECB` is decoded without any
malformed-container failure: field extraction succeeds and yields zero
dimensions and an empty ciphertext.  The code performs no minimum-length
check. -/
theorem c3_counterexample :
    decodeContainer ([0, 0, 0, 0, 0, 0, 0, 0] ++ strBytes "ECB") =
      .ok ⟨0, 0, "ECB", 0, none, [], none⟩ := by decide

/-- Claim C3 as amended: the container decoder performs no structural
validation at all — for every input buffer, field extraction either succeeds
(by total, clamping slicing, whatever the buffer length and whatever the
declared iv/nonce length) or fails only because the 3-byte mode field is not
ASCII; no buffer is ever rejected for being shorter than the minimum header
or for an iv/nonce length inconsistent with its mode.  A mismatched iv/nonce
length is not even guaranteed to fail later: an ECB container declaring iv
length 16 — ECB's fixed length is 0 — decrypts end-to-end and returns
plaintext, because the ECB decrypt branch never consults the iv. -/
theorem c3_amended
    (E D : List Nat → List Nat → List Nat)
    (ocbD : List Nat → List Nat → List Nat → List Nat → Option (List Nat))
    (rsaD : OAEPParams → List Nat → Option (List Nat))
    (freshNonce : List Nat)
    (data iv pt wk aesKey : List Nat) (w h : Nat)
    (hE : ∀ b, b.length = 16 → (E aesKey b).length = 16)
    (hD : ∀ b, b.length = 16 → D aesKey (E aesKey b) = b)
    (hkey : rsaD oaepSha256 wk = some aesKey)
    (hw32 : w < 2 ^ 32) (hh32 : h < 2 ^ 32)
    (hiv : iv.length = 16)
    (hlen : pt.length = w * h) :
    ((∃ f : Fields, decodeContainer data = .ok f) ∨
      decodeContainer data = .error .unicodeDecodeError) ∧
    decrypt_image_with_mode E D ocbD rsaD freshNonce
      (natToBytesBE 4 w ++ natToBytesBE 4 h ++ modeField "ECB" ++ natToBytesBE 2 16 ++
        iv ++ ((chunks16 (pkcs7Pad pt)).map (E aesKey)).flatten) wk = .ok pt := by
  constructor
  · rcases hA : asciiDecode (rstripNul (pySlice data 8 11)) with _ | mn
    · right
      rw [decodeContainer, hA]
    · left
      by_cases hocb : mn = "OCB"
      · subst hocb
        refine ⟨⟨bytesToNatBE (pySlice data 0 4), bytesToNatBE (pySlice data 4 8), "OCB",
          bytesToNatBE (pySlice data 11 13),
          (if 0 < bytesToNatBE (pySlice data 11 13) then
            some (pySlice data 13 (13 + bytesToNatBE (pySlice data 11 13))) else none),
          pySliceToNeg16 data (13 + bytesToNatBE (pySlice data 11 13)),
          some (pyLast16 data)⟩, ?_⟩
        rw [decodeContainer]
        simp only [hA]
        rw [if_pos (show True from trivial)]
      · refine ⟨⟨bytesToNatBE (pySlice data 0 4), bytesToNatBE (pySlice data 4 8), mn,
          bytesToNatBE (pySlice data 11 13),
          (if 0 < bytesToNatBE (pySlice data 11 13) then
            some (pySlice data 13 (13 + bytesToNatBE (pySlice data 11 13))) else none),
          data.drop (13 + bytesToNatBE (pySlice data 11 13)), none⟩, ?_⟩
        rw [decodeContainer]
        simp only [hA]
        rw [if_neg hocb]
  · have hlenHW : pt.length = h * w := by rw [hlen, Nat.mul_comm]
    have hblocks : ∀ c ∈ chunks16 (pkcs7Pad pt), c.length = 16 :=
      chunks16_mem_length _ (pkcs7Pad_length_dvd _)
    have hctblocks : ∀ c ∈ (chunks16 (pkcs7Pad pt)).map (E aesKey), c.length = 16 :=
      ecb_blocks_length E aesKey (fun b hb => hE b hb) _ hblocks
    have hctlen : (((chunks16 (pkcs7Pad pt)).map (E aesKey)).flatten).length % 16 = 0 := by
      rw [flatten_length_all16 _ hctblocks]
      omega
    have hdec := decodeContainer_encode w h 16 "ECB" iv
      (((chunks16 (pkcs7Pad pt)).map (E aesKey)).flatten)
      hw32 hh32 rfl rfl (by decide) hiv (by norm_num)
    rw [decrypt_image_with_mode, decryptCore]
    simp only [List.append_assoc]
    rw [hdec]
    simp only [hkey]
    rw [if_neg (show ¬(("ECB" : String) = "OCB") by decide)]
    rw [if_pos (show True from trivial)]
    rw [if_neg (not_not_intro hctlen)]
    rw [chunks16_flatten_inv _ (goodChunks_of_all16 _ hctblocks)]
    rw [ecb_roundtrip E D aesKey (fun b hb => hD b hb) _ hblocks]
    rw [chunks16_flatten, pkcs7Unpad_pkcs7Pad]
    simp [hlenHW]

/-- Witness for the amended C3: part one at an arbitrary 3-byte buffer, part
two decrypting a concrete ECB container that declares iv length 16. -/
theorem c3_amended_witness :
    ((∃ f : Fields, decodeContainer [1, 2, 3] = .ok f) ∨
      decodeContainer [1, 2, 3] = .error .unicodeDecodeError) ∧
    decrypt_image_with_mode idBlock idBlock ocbDtriv rsaDtriv []
      (natToBytesBE 4 2 ++ natToBytesBE 4 2 ++ modeField "ECB" ++ natToBytesBE 2 16 ++
        List.replicate 16 9 ++
        ((chunks16 (pkcs7Pad [1, 2, 3, 4])).map (idBlock ((List.range 16).take 16))).flatten)
      (List.range 16) = .ok [1, 2, 3, 4] :=
  c3_amended idBlock idBlock ocbDtriv rsaDtriv []
    [1, 2, 3] (List.replicate 16 9) [1, 2, 3, 4] (List.range 16)
    ((List.range 16).take 16) 2 2
    (fun _ hb => hb) (fun _ _ => rfl) rfl
    (by norm_num) (by norm_num) (by simp) (by decide)

/-- Counterexample to claim C4: encrypting with the unknown identifier `XYZ`
does fail with the unsupported-mode error, but only after the fresh symmetric
key has been generated — the run consumes 16 random bytes (the key draw of
line 272, which precedes the mode dispatch), not 0. -/
theorem c4_counterexample :
    (encrypt_image_with_mode idBlock ocbEtriv rsaEtriv (List.range 32) [0] 1 1 "XYZ").1
        = .error .unsupportedMode ∧
      (encrypt_image_with_mode idBlock ocbEtriv rsaEtriv (List.range 32) [0] 1 1 "XYZ").2
        = 16 := ⟨rfl, rfl⟩

/-- Claim C4 as amended: the mode identifier is uppercased before matching
(`"cbc"` and `"CBC"` behave identically), and an identifier unknown after
normalization fails with the unsupported-mode error before the key is *used* —
but the 16-byte symmetric key has already been generated (16 entropy bytes
consumed) when the failure is raised. -/
theorem c4_amended
    (E : List Nat → List Nat → List Nat)
    (ocbE : List Nat → List Nat → List Nat → List Nat × List Nat)
    (rsaE : OAEPParams → List Nat → List Nat)
    (ent imgBytes : List Nat) (w h : Nat) (s : String)
    (hun : strUpper s ∉ knownModes) :
    encrypt_image_with_mode E ocbE rsaE ent imgBytes w h s =
      (.error .unsupportedMode, 16) ∧
    encrypt_image_with_mode E ocbE rsaE ent imgBytes w h "cbc" =
      encrypt_image_with_mode E ocbE rsaE ent imgBytes w h "CBC" := by
  constructor
  · simp only [knownModes, List.mem_cons, List.not_mem_nil, or_false, not_or] at hun
    obtain ⟨h1, h2, h3, h4, h5⟩ := hun
    simp [encrypt_image_with_mode, encrypt_with_upper_mode, h1, h2, h3, h4, h5]
  · rfl

/-- Witness for the amended C4: the lowercase identifier `xyz` is uppercased,
found unknown, and rejected with 16 entropy bytes already drawn. -/
theorem c4_amended_witness :
    encrypt_image_with_mode idBlock ocbEtriv rsaEtriv (List.range 32) [0] 1 1 "xyz" =
      (.error .unsupportedMode, 16) ∧
    encrypt_image_with_mode idBlock ocbEtriv rsaEtriv (List.range 32) [0] 1 1 "cbc" =
      encrypt_image_with_mode idBlock ocbEtriv rsaEtriv (List.range 32) [0] 1 1 "CBC" :=
  c4_amended idBlock ocbEtriv rsaEtriv (List.range 32) [0] 1 1 "xyz" (by decide)

/-- Claim C5: for an OCB container, decryption runs tag verification before any
plaintext is released: whenever `decrypt_and_verify` rejects the
ciphertext/tag pair, the whole call fails with the authentication error and no
plaintext value — not even a partial one — is returned. -/
theorem c5_ocb_auth_failure
    (E D : List Nat → List Nat → List Nat)
    (ocbD : List Nat → List Nat → List Nat → List Nat → Option (List Nat))
    (rsaD : OAEPParams → List Nat → Option (List Nat))
    (freshNonce : List Nat)
    (w h : Nat) (nonce ct tag wk aesKey : List Nat)
    (hw32 : w < 2 ^ 32) (hh32 : h < 2 ^ 32)
    (hnonce : nonce.length = 15) (htag : tag.length = 16)
    (hkey : rsaD oaepSha256 wk = some aesKey)
    (hfail : ocbD aesKey nonce ct tag = none) :
    decrypt_image_with_mode E D ocbD rsaD freshNonce
      (natToBytesBE 4 w ++ natToBytesBE 4 h ++ modeField "OCB" ++ natToBytesBE 2 15 ++
        nonce ++ ct ++ tag) wk = .error .authenticationFailed := by
  have hdec := decodeContainer_encode_ocb w h nonce ct tag hw32 hh32 hnonce htag
  rw [decrypt_image_with_mode, decryptCore]
  simp only [List.append_assoc]
  rw [hdec]
  simp only [hkey]
  rw [if_pos (show True from trivial)]
  rw [if_neg (show ¬(nonce.length = 0 ∨ 15 < nonce.length) by rw [hnonce]; decide)]
  simp only [Option.getD_some]
  rw [hfail]

/-- Witness for C5: a concrete OCB container with an all-ones tag that the
verifier rejects. -/
theorem c5_ocb_auth_failure_witness :
    decrypt_image_with_mode idBlock idBlock ocbDtriv rsaDtriv []
      (natToBytesBE 4 1 ++ natToBytesBE 4 1 ++ modeField "OCB" ++ natToBytesBE 2 15 ++
        List.replicate 15 2 ++ [5] ++ List.replicate 16 1) (List.range 16)
      = .error .authenticationFailed :=
  c5_ocb_auth_failure idBlock idBlock ocbDtriv rsaDtriv [] 1 1
    (List.replicate 15 2) [5] (List.replicate 16 1) (List.range 16)
    ((List.range 16).take 16)
    (by norm_num) (by norm_num) (by simp) (by simp) rfl (by decide)

/-- Any successful core decryption returns exactly the width and height that the
container header declared. -/
theorem decryptCore_ok_dims
    (E D : List Nat → List Nat → List Nat)
    (ocbD : List Nat → List Nat → List Nat → List Nat → Option (List Nat))
    (rsaD : OAEPParams → List Nat → Option (List Nat))
    (freshNonce : List Nat) (data wk : List Nat) (f : Fields)
    (w h : Nat) (bs : List Nat)
    (hf : decodeContainer data = .ok f)
    (hcore : decryptCore E D ocbD rsaD freshNonce data wk = .ok (w, h, bs)) :
    w = f.width ∧ h = f.height := by
  rw [decryptCore, hf] at hcore
  simp only [] at hcore
  repeat' split at hcore
  all_goals first
    | (rw [Except.ok.injEq, Prod.mk.injEq, Prod.mk.injEq] at hcore
       exact ⟨hcore.1.symm, hcore.2.1.symm⟩)
    | (cases hcore)

/-- Claim C6: decryption validates the recovered (unpadded) plaintext length
against `width * height` as declared in the container header before returning
it — the reshape of line 483 succeeds exactly when the byte count matches, and
any mismatch fails with the dimension error. -/
theorem c6_dimension_check
    (E D : List Nat → List Nat → List Nat)
    (ocbD : List Nat → List Nat → List Nat → List Nat → Option (List Nat))
    (rsaD : OAEPParams → List Nat → Option (List Nat))
    (freshNonce : List Nat) (data wk : List Nat) (f : Fields)
    (w h : Nat) (bs : List Nat)
    (hf : decodeContainer data = .ok f)
    (hcore : decryptCore E D ocbD rsaD freshNonce data wk = .ok (w, h, bs)) :
    w = f.width ∧ h = f.height ∧
    (decrypt_image_with_mode E D ocbD rsaD freshNonce data wk = .ok bs ↔
      bs.length = h * w) ∧
    (bs.length ≠ h * w →
      decrypt_image_with_mode E D ocbD rsaD freshNonce data wk =
        .error .dimensionMismatch) := by
  obtain ⟨hwf, hhf⟩ := decryptCore_ok_dims E D ocbD rsaD freshNonce data wk f w h bs hf hcore
  refine ⟨hwf, hhf, ?_, ?_⟩
  · rw [decrypt_image_with_mode]
    simp only [hcore]
    by_cases hb : bs.length = h * w
    · rw [if_pos hb]
      simp [hb]
    · rw [if_neg hb]
      simp [hb]
  · intro hb
    rw [decrypt_image_with_mode]
    simp only [hcore]
    rw [if_neg hb]

/-- Witness for C6: a CTR container declaring a 3x3 raster over a 4-byte
ciphertext decrypts to 4 bytes, which cannot reshape to 3x3, so the call
fails with the dimension error. -/
theorem c6_dimension_check_witness :
    3 = (Fields.mk 3 3 "CTR" 16 (some (List.range 16)) [5, 6, 7, 8] none).width ∧
    3 = (Fields.mk 3 3 "CTR" 16 (some (List.range 16)) [5, 6, 7, 8] none).height ∧
    (decrypt_image_with_mode idBlock idBlock ocbDtriv rsaDtriv []
        (natToBytesBE 4 3 ++ natToBytesBE 4 3 ++ modeField "CTR" ++ natToBytesBE 2 16 ++
          List.range 16 ++ [5, 6, 7, 8]) (List.range 16) =
        .ok (ctrXcrypt idBlock ((List.range 16).take 16) (List.range 16) [5, 6, 7, 8]) ↔
      (ctrXcrypt idBlock ((List.range 16).take 16) (List.range 16) [5, 6, 7, 8]).length = 3 * 3) ∧
    ((ctrXcrypt idBlock ((List.range 16).take 16) (List.range 16) [5, 6, 7, 8]).length ≠ 3 * 3 →
      decrypt_image_with_mode idBlock idBlock ocbDtriv rsaDtriv []
        (natToBytesBE 4 3 ++ natToBytesBE 4 3 ++ modeField "CTR" ++ natToBytesBE 2 16 ++
          List.range 16 ++ [5, 6, 7, 8]) (List.range 16) =
        .error .dimensionMismatch) :=
  c6_dimension_check idBlock idBlock ocbDtriv rsaDtriv []
    (natToBytesBE 4 3 ++ natToBytesBE 4 3 ++ modeField "CTR" ++ natToBytesBE 2 16 ++
      List.range 16 ++ [5, 6, 7, 8]) (List.range 16)
    ⟨3, 3, "CTR", 16, some (List.range 16), [5, 6, 7, 8], none⟩
    3 3 (ctrXcrypt idBlock ((List.range 16).take 16) (List.range 16) [5, 6, 7, 8])
    (by decide) (by decide)

/-- Counterexample to claim C7: for the 16-byte (4x4) plaintext under ECB, the
container is 45 bytes (13-byte header plus 32 bytes of padded ciphertext), so
the container length exceeds the unpadded plaintext length by 29 bytes — not
by 1 to 16 as the claim states; the 1–16 byte bound holds for the ciphertext,
not the container. -/
theorem c7_counterexample :
    (encrypt_image_with_mode idBlock ocbEtriv rsaEtriv (List.range 32)
        (List.replicate 16 7) 4 4 "ECB").1.map (fun o => o.container.length) = .ok 45 ∧
    ¬(1 ≤ 45 - (List.replicate 16 7 : List Nat).length ∧
      45 - (List.replicate 16 7 : List Nat).length ≤ 16) := by
  constructor
  · rfl
  · decide

/-- Claim C7 as amended (container length corrected to ciphertext length):
under ECB and CBC the ciphertext is the PKCS7-padded plaintext encrypted
block-wise, so the *ciphertext* exceeds the unpadded plaintext by 1 to 16
bytes, and a block-aligned plaintext gains one full extra 16-byte padding
block that unpadding tolerates; under CTR, CFB and OCB the ciphertext length
equals the plaintext length exactly, OCB additionally carrying a 16-byte tag. -/
theorem c7_amended
    (E : List Nat → List Nat → List Nat)
    (ocbE : List Nat → List Nat → List Nat → List Nat × List Nat)
    (k iv nonce ocbNonce pt : List Nat)
    (hE : ∀ b, b.length = 16 → (E k b).length = 16)
    (hOcbLen : ∀ kk n p, (ocbE kk n p).1.length = p.length ∧ (ocbE kk n p).2.length = 16)
    (hiv : iv.length = 16) :
    (((chunks16 (pkcs7Pad pt)).map (E k)).flatten.length
        = pt.length + (16 - pt.length % 16) ∧
      1 ≤ 16 - pt.length % 16 ∧ 16 - pt.length % 16 ≤ 16) ∧
    ((cbcEncB E k iv (chunks16 (pkcs7Pad pt))).flatten.length
        = pt.length + (16 - pt.length % 16)) ∧
    (pt.length % 16 = 0 →
      pkcs7Pad pt = pt ++ List.replicate 16 16 ∧
      pkcs7Unpad (pkcs7Pad pt) = .ok pt) ∧
    ((cfbEncB E k iv (chunks16 pt)).flatten.length = pt.length) ∧
    ((ctrXcrypt E k nonce pt).length = pt.length) ∧
    ((ocbE k ocbNonce pt).1.length = pt.length ∧ (ocbE k ocbNonce pt).2.length = 16) := by
  have hblocks : ∀ c ∈ chunks16 (pkcs7Pad pt), c.length = 16 :=
    chunks16_mem_length _ (pkcs7Pad_length_dvd _)
  have hpadlen : (pkcs7Pad pt).length = pt.length + (16 - pt.length % 16) :=
    pkcs7Pad_length pt
  have hmod := Nat.mod_lt pt.length (show 0 < 16 by norm_num)
  refine ⟨⟨?_, by omega, by omega⟩, ?_, ?_, ?_, ?_, ?_⟩
  · rw [flatten_length_all16 _
      (ecb_blocks_length E k (fun b hb => hE b hb) _ hblocks), List.length_map,
      ← flatten_length_all16 _ hblocks, chunks16_flatten, hpadlen]
  · rw [flatten_length_all16 _
      (cbc_blocks_length E k (fun b hb => hE b hb) _ _ hiv hblocks), cbcEncB_length_count,
      ← flatten_length_all16 _ hblocks, chunks16_flatten, hpadlen]
  · intro h0
    constructor
    · rw [pkcs7Pad, h0]
    · exact pkcs7Unpad_pkcs7Pad pt
  · rw [cfb_enc_flatten_length E k (fun b hb => hE b hb) _ (goodChunks_chunks16 pt) _ hiv,
      chunks16_flatten]
  · exact ctrXcrypt_length E k nonce (fun b hb => hE b hb) pt
  · exact hOcbLen k ocbNonce pt

/-- Witness for the amended C7 at the 16-byte plaintext of the counterexample:
the ECB/CBC ciphertext is 32 bytes (one full extra padding block, which
unpadding removes again), the CTR/CFB/OCB ciphertext is 16 bytes, and the OCB
tag is 16 bytes. -/
theorem c7_amended_witness :
    (((chunks16 (pkcs7Pad (List.replicate 16 7))).map (idBlock (List.range 16))).flatten.length
        = (List.replicate 16 7 : List Nat).length + (16 - (List.replicate 16 7 : List Nat).length % 16) ∧
      1 ≤ 16 - (List.replicate 16 7 : List Nat).length % 16 ∧
      16 - (List.replicate 16 7 : List Nat).length % 16 ≤ 16) ∧
    ((cbcEncB idBlock (List.range 16) (List.replicate 16 3)
        (chunks16 (pkcs7Pad (List.replicate 16 7)))).flatten.length
        = (List.replicate 16 7 : List Nat).length + (16 - (List.replicate 16 7 : List Nat).length % 16)) ∧
    ((List.replicate 16 7 : List Nat).length % 16 = 0 →
      pkcs7Pad (List.replicate 16 7) = List.replicate 16 7 ++ List.replicate 16 16 ∧
      pkcs7Unpad (pkcs7Pad (List.replicate 16 7)) = .ok (List.replicate 16 7)) ∧
    ((cfbEncB idBlock (List.range 16) (List.replicate 16 3)
        (chunks16 (List.replicate 16 7))).flatten.length = (List.replicate 16 7 : List Nat).length) ∧
    ((ctrXcrypt idBlock (List.range 16) (List.replicate 16 4)
        (List.replicate 16 7)).length = (List.replicate 16 7 : List Nat).length) ∧
    ((ocbEtriv (List.range 16) (List.replicate 15 2) (List.replicate 16 7)).1.length
        = (List.replicate 16 7 : List Nat).length ∧
      (ocbEtriv (List.range 16) (List.replicate 15 2) (List.replicate 16 7)).2.length = 16) :=
  c7_amended idBlock ocbEtriv (List.range 16) (List.replicate 16 3) (List.replicate 16 4)
    (List.replicate 15 2) (List.replicate 16 7)
    (fun _ hb => hb)
    (fun _ _ _ => ⟨rfl, by simp [ocbEtriv]⟩)
    (by simp)

/-- Claim C8: every successful encryption wraps the freshly generated 16-byte
symmetric key (the first 16 entropy bytes) under RSA-OAEP with SHA-256 for
both the mask generation function and the main digest and an empty label; the
wrapped bytes have the 128-byte modulus length of the 1024-bit key pair, and
they live in the separate sibling artifact, never inside the container — the
container bytes are identical under any other wrap function. -/
theorem c8_key_wrap
    (E : List Nat → List Nat → List Nat)
    (ocbE : List Nat → List Nat → List Nat → List Nat × List Nat)
    (rsaE rsaE2 : OAEPParams → List Nat → List Nat)
    (hlen : ∀ p k, k.length = 16 → (rsaE p k).length = 128)
    (ent imgBytes : List Nat) (w h : Nat) (m : String)
    (hm : m ∈ knownModes) (hent : 32 ≤ ent.length)
    (cont wk : List Nat)
    (henc : (encrypt_image_with_mode E ocbE rsaE ent imgBytes w h m).1 = .ok ⟨cont, wk⟩) :
    wk = rsaE ⟨HashAlg.SHA256, HashAlg.SHA256, none⟩ (ent.take 16) ∧
    (ent.take 16).length = 16 ∧
    wk.length = 128 ∧
    (encrypt_image_with_mode E ocbE rsaE2 ent imgBytes w h m).1 =
      .ok ⟨cont, rsaE2 oaepSha256 (ent.take 16)⟩ := by
  have hkey : (ent.take 16).length = 16 := by rw [List.length_take]; omega
  simp only [knownModes, List.mem_cons, List.not_mem_nil, or_false] at hm
  rcases hm with rfl | rfl | rfl | rfl | rfl
  · rw [encrypt_eq_ECB] at henc
    simp only [Except.ok.injEq, EncOut.mk.injEq] at henc
    obtain ⟨hcont, hwk⟩ := henc
    subst hcont hwk
    exact ⟨rfl, hkey, hlen _ _ hkey, by rw [encrypt_eq_ECB]⟩
  · rw [encrypt_eq_CBC] at henc
    simp only [Except.ok.injEq, EncOut.mk.injEq] at henc
    obtain ⟨hcont, hwk⟩ := henc
    subst hcont hwk
    exact ⟨rfl, hkey, hlen _ _ hkey, by rw [encrypt_eq_CBC]⟩
  · rw [encrypt_eq_CTR] at henc
    simp only [Except.ok.injEq, EncOut.mk.injEq] at henc
    obtain ⟨hcont, hwk⟩ := henc
    subst hcont hwk
    exact ⟨rfl, hkey, hlen _ _ hkey, by rw [encrypt_eq_CTR]⟩
  · rw [encrypt_eq_CFB] at henc
    simp only [Except.ok.injEq, EncOut.mk.injEq] at henc
    obtain ⟨hcont, hwk⟩ := henc
    subst hcont hwk
    exact ⟨rfl, hkey, hlen _ _ hkey, by rw [encrypt_eq_CFB]⟩
  · rw [encrypt_eq_OCB] at henc
    simp only [Except.ok.injEq, EncOut.mk.injEq] at henc
    obtain ⟨hcont, hwk⟩ := henc
    subst hcont hwk
    exact ⟨rfl, hkey, hlen _ _ hkey, by rw [encrypt_eq_OCB]⟩

/-- Witness for C8 at a concrete CBC encryption: the wrapped key is the
OAEP-SHA256 wrap of the first 16 entropy bytes, 128 bytes long, and the
container is unchanged when a different wrap function (here byte-reversing)
is substituted. -/
theorem c8_key_wrap_witness :
    rsaEtriv oaepSha256 ((List.range 32).take 16) =
      rsaEtriv ⟨HashAlg.SHA256, HashAlg.SHA256, none⟩ ((List.range 32).take 16) ∧
    ((List.range 32).take 16).length = 16 ∧
    (rsaEtriv oaepSha256 ((List.range 32).take 16)).length = 128 ∧
    (encrypt_image_with_mode idBlock ocbEtriv (fun _ k => k.reverse ++ List.replicate 112 0)
        (List.range 32) [9, 8, 7, 6] 2 2 "CBC").1 =
      .ok ⟨natToBytesBE 4 2 ++ natToBytesBE 4 2 ++ modeField "CBC" ++ natToBytesBE 2 16 ++
        ((List.range 32).drop 16).take 16 ++
        (cbcEncB idBlock ((List.range 32).take 16) (((List.range 32).drop 16).take 16)
          (chunks16 (pkcs7Pad [9, 8, 7, 6]))).flatten,
        (fun (_ : OAEPParams) (k : List Nat) => k.reverse ++ List.replicate 112 0)
          oaepSha256 ((List.range 32).take 16)⟩ :=
  c8_key_wrap idBlock ocbEtriv rsaEtriv (fun _ k => k.reverse ++ List.replicate 112 0)
    (fun _ k hk => by simp [rsaEtriv, hk])
    (List.range 32) [9, 8, 7, 6] 2 2 "CBC" (by decide) (by simp)
    _ _ rfl

/-- Claim C9 (implicit): for a buffer whose mode field decodes to `OCB`, the
decoder always splits by total slicing that never raises — the tag is
`data[-16:]` (the final 16 bytes whenever at least 16 exist, clamped to the
whole buffer otherwise) and the ciphertext is `data[header_end:-16]`; in
particular, when the buffer is shorter than `header_end + 16` the split still
succeeds with an empty ciphertext and a tag slice that starts inside the
header/nonce region. -/
theorem c9_ocb_tail_split (data : List Nat)
    (hmode : asciiDecode (rstripNul (pySlice data 8 11)) = some "OCB") :
    ∃ f : Fields, decodeContainer data = .ok f ∧
      f.ivLen = bytesToNatBE (pySlice data 11 13) ∧
      f.tag = some (data.drop (data.length - 16)) ∧
      f.ciphertext =
        (data.drop (13 + f.ivLen)).take (data.length - 16 - (13 + f.ivLen)) ∧
      (data.length < 13 + f.ivLen + 16 →
        f.ciphertext = [] ∧ data.length - 16 < 13 + f.ivLen) := by
  refine ⟨⟨bytesToNatBE (pySlice data 0 4), bytesToNatBE (pySlice data 4 8), "OCB",
      bytesToNatBE (pySlice data 11 13),
      (if 0 < bytesToNatBE (pySlice data 11 13) then
        some (pySlice data 13 (13 + bytesToNatBE (pySlice data 11 13))) else none),
      pySliceToNeg16 data (13 + bytesToNatBE (pySlice data 11 13)),
      some (pyLast16 data)⟩, ?_, rfl, rfl, rfl, ?_⟩
  · rw [decodeContainer]
    simp only [hmode]
    rw [if_pos (show True from trivial)]
  · intro hlt
    have hlt2 : data.length < 13 + bytesToNatBE (pySlice data 11 13) + 16 := hlt
    constructor
    · show pySliceToNeg16 data (13 + bytesToNatBE (pySlice data 11 13)) = []
      rw [pySliceToNeg16,
        show data.length - 16 - (13 + bytesToNatBE (pySlice data 11 13)) = 0 from by omega]
      exact List.take_zero _
    · show data.length - 16 < 13 + bytesToNatBE (pySlice data 11 13)
      omega

/-- Witness for C9: an 18-byte `OCB`-tagged buffer, shorter than
`header_end + 16`; the split succeeds, the ciphertext slice is empty and the
tag slice starts inside the header. -/
theorem c9_ocb_tail_split_witness :
    ∃ f : Fields,
      decodeContainer ([0, 0, 0, 0, 0, 0, 0, 0] ++ strBytes "OCB" ++ [0, 15] ++
        [1, 2, 3, 4, 5]) = .ok f ∧
      f.ivLen = bytesToNatBE (pySlice ([0, 0, 0, 0, 0, 0, 0, 0] ++ strBytes "OCB" ++ [0, 15] ++
        [1, 2, 3, 4, 5]) 11 13) ∧
      f.tag = some (([0, 0, 0, 0, 0, 0, 0, 0] ++ strBytes "OCB" ++ [0, 15] ++
        [1, 2, 3, 4, 5] : List Nat).drop (([0, 0, 0, 0, 0, 0, 0, 0] ++ strBytes "OCB" ++ [0, 15] ++
        [1, 2, 3, 4, 5] : List Nat).length - 16)) ∧
      f.ciphertext =
        (([0, 0, 0, 0, 0, 0, 0, 0] ++ strBytes "OCB" ++ [0, 15] ++
          [1, 2, 3, 4, 5] : List Nat).drop (13 + f.ivLen)).take
          (([0, 0, 0, 0, 0, 0, 0, 0] ++ strBytes "OCB" ++ [0, 15] ++
            [1, 2, 3, 4, 5] : List Nat).length - 16 - (13 + f.ivLen)) ∧
      (([0, 0, 0, 0, 0, 0, 0, 0] ++ strBytes "OCB" ++ [0, 15] ++
          [1, 2, 3, 4, 5] : List Nat).length < 13 + f.ivLen + 16 →
        f.ciphertext = [] ∧
        ([0, 0, 0, 0, 0, 0, 0, 0] ++ strBytes "OCB" ++ [0, 15] ++
          [1, 2, 3, 4, 5] : List Nat).length - 16 < 13 + f.ivLen) :=
  c9_ocb_tail_split ([0, 0, 0, 0, 0, 0, 0, 0] ++ strBytes "OCB" ++ [0, 15] ++ [1, 2, 3, 4, 5])
    (by decide)

/-- Dropping the 8 width/height bytes of any container-like buffer. -/
theorem drop8_wh (w h : Nat) (rest : List Nat) :
    (natToBytesBE 4 w ++ (natToBytesBE 4 h ++ rest)).drop 8 = rest := by
  rw [show (8 : Nat) = 4 + 4 from rfl, ← List.drop_drop,
    List.drop_left' (natToBytesBE_length 4 w), List.drop_left' (natToBytesBE_length 4 h)]

/-- Counterexample to claim C10: a container written by `encrypt_image_hybrid`
*can* be decoded — even fully decrypted — by `decrypt_image_with_mode`, when
the random legacy IV happens to begin with bytes spelling `CTR` followed by a
plausible iv-length field: the mode decoder misreads those IV bytes as a mode
header and runs a CTR decryption over shifted bytes, returning a buffer (of
the right length for the declared 11x1 raster, but unrelated to the original
plaintext) instead of failing.  So the universal "not decodable" is false. -/
theorem c10_counterexample :
    decrypt_image_with_mode idBlock idBlock ocbDtriv rsaDtriv []
      (encrypt_image_hybrid idBlock rsaEtriv
        (List.range 16 ++ (strBytes "CTR" ++ [0, 16] ++ List.range 11))
        (List.range 11) 11 1).container
      (encrypt_image_hybrid idBlock rsaEtriv
        (List.range 16 ++ (strBytes "CTR" ++ [0, 16] ++ List.range 11))
        (List.range 11) 11 1).wrappedKey
      = .ok [5, 6, 7, 8, 9, 10, 5, 5, 5, 5, 5] := by decide

/-- Claim C10 as amended: the legacy fixed-CBC pair applies the same
PKCS7-pad-then-AES-CBC transform as the CBC branch of the mode-dispatch pair —
for equal key, IV and plaintext both produce identical ciphertext bytes and
identical wrapped-key bytes — but the legacy container header is only
width(4) ++ height(4) ++ IV(16) with no mode field and no iv-length field, so
the two formats misparse each other: the mode decoder reads the legacy IV's
first three bytes as its mode field (hence accepts a legacy container only
when those random bytes mimic a known mode name, as the counterexample shows),
and the legacy decoder reads the mode container's mode tag and iv-length bytes
as the first five IV bytes. -/
theorem c10_amended
    (E : List Nat → List Nat → List Nat)
    (ocbE : List Nat → List Nat → List Nat → List Nat × List Nat)
    (rsaE : OAEPParams → List Nat → List Nat)
    (ent imgBytes : List Nat) (w h : Nat)
    (hent : 32 ≤ ent.length) :
    (encrypt_image_hybrid E rsaE ent imgBytes w h).container
        = natToBytesBE 4 w ++ natToBytesBE 4 h ++ (ent.drop 16).take 16 ++
          (cbcEncB E (ent.take 16) ((ent.drop 16).take 16)
            (chunks16 (pkcs7Pad imgBytes))).flatten ∧
    (encrypt_image_with_mode E ocbE rsaE ent imgBytes w h "CBC").1
        = .ok ⟨natToBytesBE 4 w ++ natToBytesBE 4 h ++ modeField "CBC" ++ natToBytesBE 2 16 ++
            (ent.drop 16).take 16 ++
            (cbcEncB E (ent.take 16) ((ent.drop 16).take 16)
              (chunks16 (pkcs7Pad imgBytes))).flatten,
            (encrypt_image_hybrid E rsaE ent imgBytes w h).wrappedKey⟩ ∧
    pySlice (encrypt_image_hybrid E rsaE ent imgBytes w h).container 8 11
        = ((ent.drop 16).take 16).take 3 ∧
    pySlice (natToBytesBE 4 w ++ natToBytesBE 4 h ++ modeField "CBC" ++ natToBytesBE 2 16 ++
        (ent.drop 16).take 16 ++
        (cbcEncB E (ent.take 16) ((ent.drop 16).take 16)
          (chunks16 (pkcs7Pad imgBytes))).flatten) 8 24
        = modeField "CBC" ++ natToBytesBE 2 16 ++ ((ent.drop 16).take 16).take 11 := by
  have hiv : ((ent.drop 16).take 16).length = 16 := by
    rw [List.length_take, List.length_drop]; omega
  refine ⟨rfl, ?_, ?_, ?_⟩
  · rw [encrypt_eq_CBC]
    rfl
  · show pySlice (natToBytesBE 4 w ++ natToBytesBE 4 h ++ (ent.drop 16).take 16 ++
      (cbcEncB E (ent.take 16) ((ent.drop 16).take 16)
        (chunks16 (pkcs7Pad imgBytes))).flatten) 8 11 = _
    rw [pySlice]
    simp only [List.append_assoc]
    rw [drop8_wh]
    rw [List.take_append_eq_append_take, hiv]
    simp
  · rw [pySlice]
    simp only [List.append_assoc]
    rw [drop8_wh]
    rw [List.take_append_eq_append_take,
      List.take_of_length_le (show (modeField "CBC").length ≤ 16 by norm_num [modeField, strBytes])]
    rw [show (modeField "CBC").length = 3 from rfl]
    rw [List.take_append_eq_append_take,
      List.take_of_length_le (show (natToBytesBE 2 16).length ≤ 16 - 3 by rw [natToBytesBE_length]; norm_num)]
    rw [show (natToBytesBE 2 16).length = 2 from natToBytesBE_length 2 16]
    rw [List.take_append_eq_append_take, hiv]
    simp

/-- Witness for the amended C10 at a concrete entropy stream. -/
theorem c10_amended_witness :
    (encrypt_image_hybrid idBlock rsaEtriv (List.range 32) [1, 2, 3] 3 1).container
        = natToBytesBE 4 3 ++ natToBytesBE 4 1 ++ ((List.range 32).drop 16).take 16 ++
          (cbcEncB idBlock ((List.range 32).take 16) (((List.range 32).drop 16).take 16)
            (chunks16 (pkcs7Pad [1, 2, 3]))).flatten ∧
    (encrypt_image_with_mode idBlock ocbEtriv rsaEtriv (List.range 32) [1, 2, 3] 3 1 "CBC").1
        = .ok ⟨natToBytesBE 4 3 ++ natToBytesBE 4 1 ++ modeField "CBC" ++ natToBytesBE 2 16 ++
            ((List.range 32).drop 16).take 16 ++
            (cbcEncB idBlock ((List.range 32).take 16) (((List.range 32).drop 16).take 16)
              (chunks16 (pkcs7Pad [1, 2, 3]))).flatten,
            (encrypt_image_hybrid idBlock rsaEtriv (List.range 32) [1, 2, 3] 3 1).wrappedKey⟩ ∧
    pySlice (encrypt_image_hybrid idBlock rsaEtriv (List.range 32) [1, 2, 3] 3 1).container 8 11
        = (((List.range 32).drop 16).take 16).take 3 ∧
    pySlice (natToBytesBE 4 3 ++ natToBytesBE 4 1 ++ modeField "CBC" ++ natToBytesBE 2 16 ++
        ((List.range 32).drop 16).take 16 ++
        (cbcEncB idBlock ((List.range 32).take 16) (((List.range 32).drop 16).take 16)
          (chunks16 (pkcs7Pad [1, 2, 3]))).flatten) 8 24
        = modeField "CBC" ++ natToBytesBE 2 16 ++ (((List.range 32).drop 16).take 16).take 11 :=
  c10_amended idBlock ocbEtriv rsaEtriv (List.range 32) [1, 2, 3] 3 1 (by simp)
